import Mathlib

set_option maxRecDepth 100000

/-!
Shallow embedding of the file catalog and search subsystem of the ed2kd
server (src/db_sqlite.c) and proofs of the specification claims about it.

The catalog is an in-memory SQLite database; its tables (`files`, `fnames`,
`sources`) are modelled as Lean lists, and the triggers installed by
`db_create` (`sources_ai`, `sources_bd`, `files_au`, `files_fts1..4`) are
folded into the operations that fire them, in firing order.
-/

namespace Ed2kd

/-- Modulus of C `uint64_t` arithmetic. -/
def U64 : Nat := 2 ^ 64

/-- One step of the `sdbm` hash from db_sqlite.c:
`hash = (*str++) + (hash << 6) + (hash << 16) - hash` on `uint64_t`.
With `h < 2 ^ 64` the wrapped result equals this expression (the natural
number `c + h * 64 + h * 65536 - h` is nonnegative and congruent to the
C value mod `2 ^ 64`). -/
def sdbmStep (h c : Nat) : Nat := (c + h * 64 + h * 65536 - h) % U64

/-- The `sdbm` hash of a byte list (db_sqlite.c, function `sdbm`). -/
def sdbm (l : List Nat) : Nat := l.foldl sdbmStep 0

/-- Macro `MAKE_FID(x)`: `sdbm((x), 16)` over the 16-byte content hash. -/
def MAKE_FID (hash : List Nat) : Nat := sdbm (hash.take 16)

/-- The (address, port) pair that identifies a peer (`struct client`
fields `id : uint32_t` and `port : uint16_t` per the spec's
SourceIdentity; the struct itself lives outside db_sqlite.c). -/
structure Client where
  id : Nat
  port : Nat
  deriving DecidableEq, Repr

/-- Macro `MAKE_SID(x)`: `((uint64_t)(x)->id << 32) | (uint64_t)(x)->port`. -/
def MAKE_SID (c : Client) : Nat := (c.id <<< 32) ||| c.port

/-- Macro `GET_SID_ID(sid)`: `(uint32_t)((sid) >> 32)`. -/
def GET_SID_ID (sid : Nat) : Nat := (sid >>> 32) % 2 ^ 32

/-- Macro `GET_SID_PORT(sid)`: `(uint16_t)(sid)`. -/
def GET_SID_PORT (sid : Nat) : Nat := sid % 2 ^ 16

/-- A row of the `files` table (`rating` is the running rating sum, as in
the schema of db_create). -/
structure FileRow where
  fid : Nat
  hash : List Nat
  name : List Char
  ext : List Char
  size : Nat
  type : Nat
  srcavail : Int
  srccomplete : Int
  rating : Int
  rated_count : Int
  mlength : Nat
  mbitrate : Nat
  mcodec : List Char
  deriving DecidableEq, Repr

/-- A row of the `sources` table. -/
structure SourceRow where
  fid : Nat
  sid : Nat
  complete : Bool
  rating : Int
  deriving DecidableEq, Repr

/-- The catalog state: tables `files`, `fnames` (the fts4 index, one
`(docid, name)` entry per indexed row; `docid = fid` because `fid` is the
INTEGER PRIMARY KEY) and `sources`. -/
structure DB where
  files : List FileRow
  fnames : List (Nat × List Char)
  sources : List SourceRow
  deriving DecidableEq, Repr

/-- The state right after `db_create`: freshly created (or cleared) empty
tables, with all triggers installed. -/
def db_create : DB := ⟨[], [], []⟩

/-- Models `UPDATE files SET ... WHERE fid = fid0` together with the
triggers it can fire, in order: `files_fts1`/`files_fts2` (re-index the
name when it changed) and `files_au` (when an updated row ends with
`srcavail = 0`, `DELETE FROM files WHERE fid = new.fid`, which itself
fires `files_fts3` and removes the fnames entries of the deleted rows). -/
def updFiles (fid0 : Nat) (g : FileRow → FileRow) (db : DB) : DB :=
  let files1 := db.files.map (fun f => if f.fid == fid0 then g f else f)
  let nameChanged := db.files.any (fun f => f.fid == fid0 && (g f).name != f.name)
  let fnames1 :=
    if nameChanged then
      db.fnames.filter (fun e => e.1 != fid0)
        ++ (files1.filter (fun f => f.fid == fid0)).map (fun f => (f.fid, f.name))
    else db.fnames
  if files1.any (fun f => f.fid == fid0 && f.srcavail == 0) then
    { files := files1.filter (fun f => f.fid != fid0),
      fnames := fnames1.filter (fun e => e.1 != fid0),
      sources := db.sources }
  else
    { files := files1, fnames := fnames1, sources := db.sources }

/-- Models `INSERT INTO sources(fid,sid,complete,rating) VALUES(?,?,?,?)`
(statement SHARE_SRC) together with the `sources_ai` AFTER INSERT trigger:
`srcavail+1`, `srccomplete+new.complete`, `rating+new.rating`, and
`rated_count = CASE WHEN new.rating<>0 THEN rated_count+1 ELSE 0 END`
(note the ELSE branch resets to 0, exactly as written in db_create). -/
def insertSource (fid0 sid0 : Nat) (complete : Bool) (rating : Int) (db : DB) : DB :=
  updFiles fid0
    (fun f =>
      { f with
          srcavail := f.srcavail + 1,
          srccomplete := f.srccomplete + (if complete then 1 else 0),
          rating := f.rating + rating,
          rated_count := if rating ≠ 0 then f.rated_count + 1 else 0 })
    { db with sources := db.sources ++ [⟨fid0, sid0, complete, rating⟩] }

/-- The per-row decrement performed by the `sources_bd` BEFORE DELETE
trigger for a deleted source row `r`. -/
def decrFor (r : SourceRow) (f : FileRow) : FileRow :=
  { f with
      srcavail := f.srcavail - 1,
      srccomplete := f.srccomplete - (if r.complete then 1 else 0),
      rating := f.rating - r.rating,
      rated_count := if r.rating ≠ 0 then f.rated_count - 1 else f.rated_count }

/-- Models `DELETE FROM sources WHERE sid = sid0` (statement REMOVE_SRC):
SQLite deletes the matching rows one at a time; for each one the
`sources_bd` trigger first decrements the owning file's aggregates
(possibly cascading into `files_au` and `files_fts3`), then the row is
removed. Non-matching rows are kept. -/
def removeSrcAux (sid0 : Nat) : List SourceRow → DB → DB
  | [], db => db
  | r :: rest, db =>
    if r.sid == sid0 then
      removeSrcAux sid0 rest (updFiles r.fid (decrFor r) db)
    else
      let db1 := removeSrcAux sid0 rest db
      { db1 with sources := r :: db1.sources }

/-- Function `db_remove_source`: delete every source row of the client. -/
def db_remove_source (clnt : Client) (db : DB) : DB :=
  removeSrcAux (MAKE_SID clnt) db.sources { db with sources := [] }

/-- Modelled from the spec: filename-extension extraction
(`file_extension` is an out-of-scope collaborator that lives outside
db_sqlite.c). It yields the suffix after the last dot of the name, empty
when there is no dot. No claim depends on its exact behaviour. -/
def file_extension (name : List Char) : List Char :=
  let rev := name.reverse
  if rev.any (fun c => c == '.') then (rev.takeWhile (fun c => c != '.')).reverse
  else []

/-- One announced file (`struct pub_file` fields used by db_share_files;
the struct is declared outside db_sqlite.c, fields per the spec's
FileAnnouncement). -/
structure PubFile where
  hash : List Nat
  name : List Char
  name_len : Nat
  size : Nat
  type : Nat
  complete : Bool
  rating : Int
  media_length : Nat
  media_bitrate : Nat
  media_codec : List Char
  deriving DecidableEq, Repr

/-- The stored name of an announcement: `bind_text(name, name_len)`. -/
def pubName (f : PubFile) : List Char := f.name.take f.name_len

/-- The row update performed by statement SHARE_UPD:
`UPDATE files SET name=?,ext=?,size=?,type=?,mlength=?,mbitrate=?,mcodec=? WHERE fid=?`. -/
def metaG (f : PubFile) (r : FileRow) : FileRow :=
  { r with
      name := pubName f, ext := file_extension (pubName f), size := f.size, type := f.type,
      mlength := f.media_length, mbitrate := f.media_bitrate, mcodec := f.media_codec }

/-- The row inserted by statement SHARE_INS (aggregate columns take their
schema DEFAULT 0). -/
def newFileRow (f : PubFile) : FileRow :=
  ⟨MAKE_FID f.hash, f.hash, pubName f, file_extension (pubName f), f.size, f.type,
    0, 0, 0, 0, f.media_length, f.media_bitrate, f.media_codec⟩

/-- Statement SHARE_UPD with its triggers. -/
def shareUpd (f : PubFile) (db : DB) : DB := updFiles (MAKE_FID f.hash) (metaG f) db

/-- Statement SHARE_INS, which also fires `files_fts4` (index the new
row's name). -/
def shareIns (f : PubFile) (db : DB) : DB :=
  { db with
      files := db.files ++ [newFileRow f],
      fnames := db.fnames ++ [(MAKE_FID f.hash, pubName f)] }

/-- One iteration of the db_share_files loop for a file with non-empty
name: SHARE_UPD (update the file row by fid); if `sqlite3_changes` says
no row matched, SHARE_INS (insert the file row, firing `files_fts4`);
then SHARE_SRC (insert the source row, firing `sources_ai`). -/
def shareOne (f : PubFile) (sid0 : Nat) (db : DB) : DB :=
  insertSource (MAKE_FID f.hash) sid0 f.complete f.rating
    (if db.files.any (fun r => r.fid == MAKE_FID f.hash) then shareUpd f db
     else shareIns f db)

/-- Function `db_share_files`: process the announced batch in order;
entries with `name_len == 0` are skipped. -/
def db_share_files (owner : Client) : List PubFile → DB → DB
  | [], db => db
  | f :: fs, db =>
    if f.name_len == 0 then db_share_files owner fs db
    else db_share_files owner fs (shareOne f (MAKE_SID owner) db)

/-- Function `db_get_sources`: `SELECT sid FROM sources WHERE fid=? LIMIT ?`,
streamed into (ip, port) pairs, reporting the produced count. -/
def db_get_sources (hash : List Nat) (count : Nat) (db : DB) : List (Nat × Nat) × Nat :=
  let rows := (db.sources.filter (fun r => r.fid == MAKE_FID hash)).take count
  (rows.map (fun r => (GET_SID_ID r.sid, GET_SID_PORT r.sid)), rows.length)

/-- A call against the catalog: one of the two mutating entry points. -/
inductive Op where
  | share (owner : Client) (files : List PubFile)
  | remove (clnt : Client)
  deriving DecidableEq, Repr

def applyOp (db : DB) : Op → DB
  | .share owner fs => db_share_files owner fs db
  | .remove c => db_remove_source c db

/-- The catalog produced by a sequence of calls starting from db_create. -/
def runOps (ops : List Op) : DB := ops.foldl applyOp db_create

/-- Number of live source rows of a file. -/
def srcCount (srcs : List SourceRow) (fid0 : Nat) : Nat :=
  srcs.countP (fun r => r.fid == fid0)

/-- Number of live source rows of a file with `complete` set. -/
def srcCompleteCount (srcs : List SourceRow) (fid0 : Nat) : Nat :=
  srcs.countP (fun r => r.fid == fid0 && r.complete)

/-- Sum of the ratings of the live source rows of a file. -/
def srcRatingSum (srcs : List SourceRow) (fid0 : Nat) : Int :=
  ((srcs.filter (fun r => r.fid == fid0)).map (fun r => r.rating)).sum

/-- The three trigger-maintained aggregates of a file row agree with the
live source-row set. -/
def aggOK (srcs : List SourceRow) (f : FileRow) : Prop :=
  f.srcavail = (srcCount srcs f.fid : Int)
  ∧ f.srccomplete = (srcCompleteCount srcs f.fid : Int)
  ∧ f.rating = srcRatingSum srcs f.fid

/-- Catalog invariant, relative to an explicit source multiset: aggregates
agree with the live sources, every file row has at least one source, the
name index only holds entries of live file rows, and every source row has
a live owning file row. -/
def InvRel (files : List FileRow) (fnames : List (Nat × List Char))
    (srcs : List SourceRow) : Prop :=
  (∀ f ∈ files, aggOK srcs f ∧ 1 ≤ f.srcavail)
  ∧ (∀ e ∈ fnames, ∃ f ∈ files, f.fid = e.1)
  ∧ (∀ r ∈ srcs, ∃ f ∈ files, f.fid = r.fid)

/-- Catalog invariant of a database state. -/
def Inv (db : DB) : Prop := InvRel db.files db.fnames db.sources

/-- Constant `MAX_SEARCH_QUERY_LEN` from db_sqlite.c. -/
def MAX_SEARCH_QUERY_LEN : Nat := 1024

/-- Constant `MAX_NAME_TERM_LEN` from db_sqlite.c; the buffer is
`char name_term[MAX_NAME_TERM_LEN + 1]`. -/
def MAX_NAME_TERM_LEN : Nat := 1024

/-- The numeric typed-filter kinds of `struct search_node`
(ST_MINSIZE, ST_MAXSIZE, ST_SRCAVAIL, ST_SRCCOMLETE, ST_MINBITRATE,
ST_MINLENGTH). -/
inductive NumFilter where
  | minsize | maxsize | srcavail | srccomplete | minbitrate | minlength
  deriving DecidableEq, Repr

/-- The string typed-filter kinds of `struct search_node`
(ST_EXTENSION, ST_CODEC, ST_TYPE). -/
inductive StrFilter where
  | extension | codec | ftype
  deriving DecidableEq, Repr

/-- The boolean operator tags ST_AND, ST_OR, ST_NOT (the contiguous range
tested by `ST_AND <= type && ST_NOT >= type`). -/
inductive BoolOp where
  | and | or | not
  deriving DecidableEq, Repr

/-- A `struct search_node` tree. Leaves are a string term (`str_val` with
`str_len = length`) or a typed filter; internal nodes carry the operator,
the `string_term` flag and the two traversal flags `left_visited`,
`right_visited` (parent pointers are implicit in the tree shape and are
made explicit by the walk's context below). -/
inductive SearchNode where
  | str (s : List Char)
  | strF (k : StrFilter) (s : List Char)
  | numF (k : NumFilter) (v : Nat)
  | node (op : BoolOp) (string_term : Bool) (left_visited right_visited : Bool)
      (l r : SearchNode)
  deriving DecidableEq, Repr

/-- The `params` locals of db_search_files: the growing search text with
its length, the six numeric filter slots (zero-initialised by memset) and
the three captured filter nodes (NULL-initialised). -/
structure SearchParams where
  name_term : List Char
  name_len : Nat
  minsize : Nat
  maxsize : Nat
  srcavail : Nat
  srccomplete : Nat
  minbitrate : Nat
  minlength : Nat
  ext_node : Option SearchNode
  codec_node : Option SearchNode
  type_node : Option SearchNode
  deriving DecidableEq, Repr

/-- The `memset(&params, 0, sizeof params)` initial state. -/
def initParams : SearchParams := ⟨[], 0, 0, 0, 0, 0, 0, 0, none, none, none⟩

/-- Unchecked append to the search text: `name_len += s.length` and
`strcat`/`strncat` of `s`. -/
def pushF (s : List Char) (p : SearchParams) : SearchParams :=
  { p with name_term := p.name_term ++ s, name_len := p.name_len + s.length }

/-- Checked append to the search text, exactly as the code does it:
first `params.name_len += s.length`, then
`DB_CHECK(params.name_len < sizeof params.name_term)` (the buffer holds
`MAX_NAME_TERM_LEN + 1` bytes), then the `strcat`. Failure of the check
aborts the whole search. -/
def pushChars (s : List Char) (p : SearchParams) : Option SearchParams :=
  if p.name_len + s.length < MAX_NAME_TERM_LEN + 1 then some (pushF s p)
  else none

/-- The operator keyword appended between the children (the code adds the
matching literal's length to `name_len` before the `strcat`). -/
def operStr : BoolOp → List Char
  | .and => (" AND ").toList
  | .or => (" OR ").toList
  | .not => (" NOT ").toList

/-- Record a numeric filter leaf: `params.<slot> = snode->int_val`. -/
def setNumF (k : NumFilter) (v : Nat) (p : SearchParams) : SearchParams :=
  match k with
  | .minsize => { p with minsize := v }
  | .maxsize => { p with maxsize := v }
  | .srcavail => { p with srcavail := v }
  | .srccomplete => { p with srccomplete := v }
  | .minbitrate => { p with minbitrate := v }
  | .minlength => { p with minlength := v }

/-- Read a numeric filter slot. -/
def getNumF (k : NumFilter) (p : SearchParams) : Nat :=
  match k with
  | .minsize => p.minsize
  | .maxsize => p.maxsize
  | .srcavail => p.srcavail
  | .srccomplete => p.srccomplete
  | .minbitrate => p.minbitrate
  | .minlength => p.minlength

/-- Record a string filter leaf: `params.ext_node = snode` etc. (a later
occurrence overwrites an earlier one). -/
def setStrF (k : StrFilter) (n : SearchNode) (p : SearchParams) : SearchParams :=
  match k with
  | .extension => { p with ext_node := some n }
  | .codec => { p with codec_node := some n }
  | .ftype => { p with type_node := some n }

/-- One frame of the walk's position: the data of the parent node minus
the child currently being visited. `plug` rebuilds the parent; this makes
the C code's parent pointers and in-place flag mutation explicit. -/
inductive Frame where
  | fromLeft (op : BoolOp) (st lv rv : Bool) (r : SearchNode)
  | fromRight (op : BoolOp) (st lv rv : Bool) (l : SearchNode)
  deriving DecidableEq, Repr

def plug (t : SearchNode) : Frame → SearchNode
  | .fromLeft o st lv rv r => .node o st lv rv t r
  | .fromRight o st lv rv l => .node o st lv rv l t

/-- Outcome of one iteration of the walk loop. -/
inductive StepRes where
  | fail
  | done (p : SearchParams) (t : SearchNode)
  | cont (t : SearchNode) (ctx : List Frame) (p : SearchParams)
  deriving DecidableEq, Repr

/-- The `snode = snode->parent` move ending a loop iteration: with no
parent the loop terminates. -/
def toParent (t : SearchNode) (ctx : List Frame) (p : SearchParams) : StepRes :=
  match ctx with
  | [] => .done p t
  | fr :: ctx1 => .cont (plug t fr) ctx1 p

/-- One iteration of the `while (snode)` walk in db_search_files.
Operator nodes: on first visit push "(" (when `string_term`), set
`left_visited` and descend left; on second push the operator keyword, set
`right_visited` and descend right; on third push ")" and go to the
parent. String leaves append `str_val`; filter leaves record themselves
into their params slot. A failed bound check is a hard failure. -/
def searchStep (t : SearchNode) (ctx : List Frame) (p : SearchParams) : StepRes :=
  match t with
  | .node o st lv rv l r =>
    if lv = false then
      match (if st then pushChars ['('] p else some p) with
      | none => .fail
      | some p1 => .cont l (.fromLeft o st true rv r :: ctx) p1
    else if rv = false then
      match (if st then pushChars (operStr o) p else some p) with
      | none => .fail
      | some p1 => .cont r (.fromRight o st lv true l :: ctx) p1
    else
      match (if st then pushChars [')'] p else some p) with
      | none => .fail
      | some p1 => toParent (.node o st lv rv l r) ctx p1
  | .str s =>
    match pushChars s p with
    | none => .fail
    | some p1 => toParent (.str s) ctx p1
  | .strF k s => toParent (.strF k s) ctx (setStrF k (.strF k s) p)
  | .numF k v => toParent (.numF k v) ctx (setNumF k v p)

/-- Fuel-indexed iteration of the walk loop (each unit of fuel is one
loop iteration; the supplied fuel below always suffices). Returns the
populated params and the tree with its mutated flags. -/
def walkAux : Nat → SearchNode → List Frame → SearchParams →
    Option (SearchParams × SearchNode)
  | 0, _, _, _ => none
  | fuel + 1, t, ctx, p =>
    match searchStep t ctx p with
    | .fail => none
    | .done p1 t1 => some (p1, t1)
    | .cont t1 ctx1 p1 => walkAux fuel t1 ctx1 p1

/-- Number of nodes of a tree. -/
def nodeCount : SearchNode → Nat
  | .node _ _ _ _ l r => 1 + nodeCount l + nodeCount r
  | _ => 1

/-- The compile phase of db_search_files: run the parent-linked walk from
the root with no parent, starting from zeroed params. -/
def dbSearchCompile (t : SearchNode) : Option (SearchParams × SearchNode) :=
  walkAux (3 * nodeCount t + 1) t [] initParams

/-- A tree is clean when every operator node still has both traversal
flags unset (the state in which the protocol layer hands the tree over). -/
def cleanTree : SearchNode → Bool
  | .node _ _ lv rv l r => !lv && !rv && cleanTree l && cleanTree r
  | _ => true

/-- Every operator node of the tree has `string_term` set. -/
def allST : SearchNode → Bool
  | .node _ st _ _ l r => st && allST l && allST r
  | _ => true

/-- Every operator node of the tree has both traversal flags set. -/
def allVisited : SearchNode → Bool
  | .node _ _ lv rv l r => lv && rv && allVisited l && allVisited r
  | _ => true

/-- The text the walk emits for a clean subtree (parentheses and the
operator keyword appear exactly at operator nodes with `string_term`). -/
def renderText : SearchNode → List Char
  | .node o st _ _ l r =>
    (if st then ['('] else []) ++ renderText l ++ (if st then operStr o else [])
      ++ renderText r ++ (if st then [')'] else [])
  | .str s => s
  | _ => []

/-- The spec's expected search text (claim C6): the fully parenthesized
infix rendering of the tree, "(" left operator right ")" at every
operator node. -/
def specRender : SearchNode → List Char
  | .node o _ _ _ l r => ['('] ++ specRender l ++ operStr o ++ specRender r ++ [')']
  | .str s => s
  | _ => []

/-- The tree after a complete clean walk: both flags set on every
operator node (they are set and never cleared). -/
def markDone : SearchNode → SearchNode
  | .node o st _ _ l r => .node o st true true (markDone l) (markDone r)
  | t => t

/-- Number of loop iterations a clean walk spends inside a subtree
(three visits per operator node, one per leaf). -/
def iters : SearchNode → Nat
  | .node _ _ _ _ l r => 3 + iters l + iters r
  | _ => 1

/-- The params after the walk has consumed a clean subtree, starting from
`p` (text and length grow by the rendered text; filter leaves land in
their slots in walk order, left before right). -/
def afterParams : SearchNode → SearchParams → SearchParams
  | .node o st _ _ l r, p =>
    (fun q => if st then pushF [')'] q else q)
      (afterParams r
        ((fun q => if st then pushF (operStr o) q else q)
          (afterParams l (if st then pushF ['('] p else p))))
  | .str s, p => pushF s p
  | .strF k s, p => setStrF k (.strF k s) p
  | .numF k v, p => setNumF k v p

/-- Continuation after a subtree has been fully consumed: ascend into the
context (or stop at the root). -/
def walkCont (fuel : Nat) (t : SearchNode) (ctx : List Frame) (p : SearchParams) :
    Option (SearchParams × SearchNode) :=
  match ctx with
  | [] => some (p, t)
  | fr :: ctx1 => walkAux fuel (plug t fr) ctx1 p

/-- Modelled from the spec: maximum filename length of the wire format
(MAX_FILENAME_LEN comes from the out-of-scope protocol header; the spec
says "name ≤ 255"). Only the truncation cap depends on it. -/
def MAX_FILENAME_LEN : Nat := 255

/-- Modelled from the spec: maximum extension/codec length of the wire
format (MAX_FILEEXT_LEN from the out-of-scope protocol header; the spec
says "64-ish"). Only the truncation cap depends on it. -/
def MAX_FILEEXT_LEN : Nat := 64

/-- The `str_val` (with its `str_len`) carried by a leaf. -/
def strValOf : SearchNode → List Char
  | .str s => s
  | .strF _ s => s
  | _ => []

/-- Modelled from the spec: the file-type-name-to-code mapping
(`get_ed2k_file_type` is an out-of-scope collaborator). Any deterministic
mapping works for the claims below. -/
def get_ed2k_file_type (s : List Char) : Nat := s.length % 256

/-- The base SELECT text of db_search_files. -/
def baseQuery : String :=
  " SELECT f.hash,f.name,f.size,f.type,f.ext,f.srcavail,f.srccomplete,f.rating,f.rated_count,"
    ++ "  (SELECT sid FROM sources WHERE fid=f.fid LIMIT 1) AS sid,"
    ++ "  f.mlength,f.mbitrate,f.mcodec "
    ++ " FROM fnames n"
    ++ " JOIN files f ON f.fid = n.docid"
    ++ " WHERE fnames MATCH ?"

/-- The query text after the conditional `strcat` of one AND clause per
present filter (a numeric filter is present when nonzero, a node filter
when captured), in the fixed order of db_search_files, ending in LIMIT. -/
def buildQueryText (p : SearchParams) : String :=
  baseQuery
    ++ (if p.ext_node.isSome then " AND f.ext=?" else "")
    ++ (if p.codec_node.isSome then " AND f.mcodec=?" else "")
    ++ (if p.minsize ≠ 0 then " AND f.size>?" else "")
    ++ (if p.maxsize ≠ 0 then " AND f.size<?" else "")
    ++ (if p.srcavail ≠ 0 then " AND f.srcavail>?" else "")
    ++ (if p.srccomplete ≠ 0 then " AND f.srccomplete>?" else "")
    ++ (if p.minbitrate ≠ 0 then " AND f.mbitrate>?" else "")
    ++ (if p.minlength ≠ 0 then " AND f.mlength>?" else "")
    ++ (if p.type_node.isSome then " AND f.type=?" else "")
    ++ " LIMIT ?"

/-- One bound parameter value. -/
inductive BindVal where
  | txt (s : List Char)
  | i64 (n : Nat)
  | i32 (n : Nat)
  deriving DecidableEq, Repr

/-- The bind sequence of db_search_files, in statement order: the MATCH
text, one bind per present filter (same order as the clauses), then the
LIMIT value. -/
def buildBinds (p : SearchParams) (count : Nat) : List BindVal :=
  [.txt p.name_term]
    ++ (match p.ext_node with | some n => [.txt (strValOf n)] | none => [])
    ++ (match p.codec_node with | some n => [.txt (strValOf n)] | none => [])
    ++ (if p.minsize ≠ 0 then [.i64 p.minsize] else [])
    ++ (if p.maxsize ≠ 0 then [.i64 p.maxsize] else [])
    ++ (if p.srcavail ≠ 0 then [.i64 p.srcavail] else [])
    ++ (if p.srccomplete ≠ 0 then [.i64 p.srccomplete] else [])
    ++ (if p.minbitrate ≠ 0 then [.i64 p.minbitrate] else [])
    ++ (if p.minlength ≠ 0 then [.i64 p.minlength] else [])
    ++ (match p.type_node with
        | some n => [.i32 (get_ed2k_file_type (strValOf n))] | none => [])
    ++ [.i32 count]

/-- Truth of the appended AND clauses on one candidate file row. -/
def rowPred (p : SearchParams) (f : FileRow) : Bool :=
  (match p.ext_node with | some n => f.ext == strValOf n | none => true)
  && (match p.codec_node with | some n => f.mcodec == strValOf n | none => true)
  && (p.minsize == 0 || decide ((p.minsize : Nat) < f.size))
  && (p.maxsize == 0 || decide (f.size < p.maxsize))
  && (p.srcavail == 0 || decide ((p.srcavail : Int) < f.srcavail))
  && (p.srccomplete == 0 || decide ((p.srccomplete : Int) < f.srccomplete))
  && (p.minbitrate == 0 || decide (p.minbitrate < f.mbitrate))
  && (p.minlength == 0 || decide (p.minlength < f.mlength))
  && (match p.type_node with
      | some n => f.type == get_ed2k_file_type (strValOf n) | none => true)

/-- The rows the compiled query yields before the LIMIT: fnames entries
matched by the full-text engine (modelled by the predicate `matchP`,
whose semantics live inside SQLite's fts4), joined to their file rows,
restricted by the filter clauses. -/
def searchRows (matchP : List Char → List Char → Bool) (db : DB)
    (p : SearchParams) : List FileRow :=
  ((db.fnames.filter (fun e => matchP p.name_term e.2)).flatMap
    (fun e => db.files.filter (fun f => f.fid == e.1))).filter (rowPred p)

/-- One emitted `struct search_file` row. -/
structure SearchFile where
  hash : List Nat
  name_len : Nat
  name : List Char
  size : Nat
  type : Nat
  ext_len : Nat
  ext : List Char
  srcavail : Int
  srccomplete : Int
  rating : Int
  rated_count : Int
  client_id : Nat
  client_port : Nat
  media_length : Nat
  media_bitrate : Nat
  media_codec_len : Nat
  media_codec : List Char
  deriving DecidableEq, Repr

/-- The scalar subquery `(SELECT sid FROM sources WHERE fid=f.fid LIMIT 1)`
(0 when NULL, as read back through sqlite3_column_int64). -/
def firstSid (db : DB) (fid0 : Nat) : Nat :=
  match db.sources.find? (fun r => r.fid == fid0) with
  | some r => r.sid
  | none => 0

/-- Normalisation of one result row into `struct search_file`: lengths of
name/ext/codec are silently truncated to the wire caps and the
representative source id is split into address and port. -/
def mkSearchFile (db : DB) (f : FileRow) : SearchFile :=
  { hash := f.hash
    name_len := min f.name.length MAX_FILENAME_LEN
    name := f.name
    size := f.size
    type := f.type
    ext_len := min f.ext.length MAX_FILEEXT_LEN
    ext := f.ext
    srcavail := f.srcavail
    srccomplete := f.srccomplete
    rating := f.rating
    rated_count := f.rated_count
    client_id := GET_SID_ID (firstSid db f.fid)
    client_port := GET_SID_PORT (firstSid db f.fid)
    media_length := f.mlength
    media_bitrate := f.mbitrate
    media_codec_len := min f.mcodec.length MAX_FILEEXT_LEN
    media_codec := f.mcodec }

/-- The row-streaming loop of db_search_files:
`while (step == SQLITE_ROW && i < *count)` normalise and emit the row,
incrementing `i`; returns the emitted rows and the final `i`. -/
def execEmit (db : DB) : List FileRow → Nat → Nat → List SearchFile × Nat
  | [], i, _ => ([], i)
  | f :: rest, i, limit =>
    if i < limit then
      let out := execEmit db rest (i + 1) limit
      (mkSearchFile db f :: out.1, out.2)
    else ([], i)

/-- Function `db_search_files`: compile the tree (hard failure on a bound
violation), run the query (its row set is cut by `LIMIT *count`), stream
up to `*count` rows into the output buffer, check
`(i == *count) || (SQLITE_DONE == err)` and write the produced count
back. `none` models `return 0` (nothing emitted); `matchP` stands for the
fts4 MATCH semantics. -/
def db_search_files (t : SearchNode) (matchP : List Char → List Char → Bool)
    (db : DB) (count : Nat) : Option (List SearchFile × Nat) :=
  match dbSearchCompile t with
  | none => none
  | some (p, _) =>
    let rows := (searchRows matchP db p).take count
    let out := execEmit db rows 0 count
    if out.2 == count || out.2 == rows.length then some (out.1, out.2) else none

/-!  Helper lemmas. -/

/-- Or-ing a value shifted past `k` bits with a `k`-bit value is addition. -/
theorem lor_mul_pow_add : ∀ (k a p : Nat), p < 2 ^ k → 2 ^ k * a ||| p = 2 ^ k * a + p := by
  intro k
  induction k with
  | zero =>
    intro a p hp
    have hp0 : p = 0 := by omega
    subst hp0
    simp
  | succ k ih =>
    intro a p hp
    have hdp : Nat.div2 p < 2 ^ k := by
      rw [Nat.div2_val]
      have h21 : 2 ^ (k + 1) = 2 * 2 ^ k := by ring
      omega
    have hb := Nat.bodd_add_div2 p
    have h2 : 2 ^ (k + 1) * a = Nat.bit false (2 ^ k * a) := by
      rw [Nat.bit_val]
      simp
      ring
    have key := Nat.lor_bit false (2 ^ k * a) (Nat.bodd p) (Nat.div2 p)
    rw [Nat.bit_decomp] at key
    rw [← h2] at key
    rw [key, Bool.false_or, ih a _ hdp, Nat.bit_val]
    have hX : 2 ^ (k + 1) * a = 2 * (2 ^ k * a) := by ring
    rw [Nat.div2_val] at *
    generalize (Nat.bodd p).toNat = b at hb
    generalize 2 ^ k * a = X at hX ⊢
    omega

theorem make_sid_eq (addr port : Nat) (h2 : port < 2 ^ 16) :
    MAKE_SID ⟨addr, port⟩ = 2 ^ 32 * addr + port := by
  unfold MAKE_SID
  simp only [Nat.shiftLeft_eq]
  rw [Nat.mul_comm]
  exact lor_mul_pow_add 32 addr port (lt_trans h2 (by norm_num))

/-!  Claim C7. -/

/-- C7: packing an address and port with MAKE_SID and unpacking with
GET_SID_ID / GET_SID_PORT is lossless, the upper 32 bits of the packed
value hold the address, the lower 16 bits hold the port, and bits 16
through 31 are zero. -/
theorem c7_sid_pack_unpack (addr port : Nat) (h1 : addr < 2 ^ 32) (h2 : port < 2 ^ 16) :
    GET_SID_ID (MAKE_SID ⟨addr, port⟩) = addr
    ∧ GET_SID_PORT (MAKE_SID ⟨addr, port⟩) = port
    ∧ MAKE_SID ⟨addr, port⟩ / 2 ^ 32 = addr
    ∧ MAKE_SID ⟨addr, port⟩ % 2 ^ 16 = port
    ∧ MAKE_SID ⟨addr, port⟩ / 2 ^ 16 % 2 ^ 16 = 0 := by
  have hm := make_sid_eq addr port h2
  have hp32 : port < 2 ^ 32 := lt_trans h2 (by norm_num)
  have hdiv : MAKE_SID ⟨addr, port⟩ / 2 ^ 32 = addr := by
    rw [hm, Nat.mul_add_div (by norm_num), Nat.div_eq_of_lt hp32, Nat.add_zero]
  have hsplit : MAKE_SID ⟨addr, port⟩ = 2 ^ 16 * (2 ^ 16 * addr) + port := by
    rw [hm]; ring
  have hmod : MAKE_SID ⟨addr, port⟩ % 2 ^ 16 = port := by
    rw [hsplit, Nat.mul_add_mod, Nat.mod_eq_of_lt h2]
  refine ⟨?_, hmod, hdiv, hmod, ?_⟩
  · unfold GET_SID_ID
    rw [Nat.shiftRight_eq_div_pow, hdiv, Nat.mod_eq_of_lt h1]
  · rw [hsplit, Nat.mul_add_div (by norm_num), Nat.div_eq_of_lt h2, Nat.add_zero,
      Nat.mul_mod_right]

/-- Witness for C7 at the spec's example identity (10.0.0.1-style client
id 10, port 4662). -/
theorem c7_witness :
    10 < 2 ^ 32 ∧ 4662 < 2 ^ 16
    ∧ (GET_SID_ID (MAKE_SID ⟨10, 4662⟩) = 10
      ∧ GET_SID_PORT (MAKE_SID ⟨10, 4662⟩) = 4662
      ∧ MAKE_SID ⟨10, 4662⟩ / 2 ^ 32 = 10
      ∧ MAKE_SID ⟨10, 4662⟩ % 2 ^ 16 = 4662
      ∧ MAKE_SID ⟨10, 4662⟩ / 2 ^ 16 % 2 ^ 16 = 0) :=
  ⟨by norm_num, by norm_num, c7_sid_pack_unpack 10 4662 (by norm_num) (by norm_num)⟩

/-!  Claim C8. -/

/-- C8: an announcement with `name_len == 0` is skipped without touching
the catalog, processing continues with the rest of the batch, and a batch
of only empty-name entries leaves the catalog unchanged (db_share_files
performs no database call at all for such entries, so the call succeeds). -/
theorem c8_empty_name_skip :
    (∀ (f : PubFile) (fs : List PubFile) (owner : Client) (db : DB),
      f.name_len = 0 → db_share_files owner (f :: fs) db = db_share_files owner fs db)
    ∧ (∀ (fs : List PubFile) (owner : Client) (db : DB),
      (∀ f ∈ fs, f.name_len = 0) → db_share_files owner fs db = db) := by
  constructor
  · intro f fs owner db h
    simp [db_share_files, h]
  · intro fs
    induction fs with
    | nil => intro owner db _; rfl
    | cons f fs ih =>
      intro owner db h
      have h0 : f.name_len = 0 := h f (by simp)
      rw [(by simp [db_share_files, h0] :
        db_share_files owner (f :: fs) db = db_share_files owner fs db)]
      exact ih owner db (fun g hg => h g (by simp [hg]))

/-- Witness for C8: a skipped empty-name entry in front of a batch, and
an all-empty batch. -/
theorem c8_witness :
    (⟨[], [], 0, 9, 0, true, 1, 0, 0, []⟩ : PubFile).name_len = 0
    ∧ db_share_files ⟨1, 2⟩ [⟨[], [], 0, 9, 0, true, 1, 0, 0, []⟩] db_create
      = db_share_files ⟨1, 2⟩ [] db_create :=
  ⟨rfl, (c8_empty_name_skip.1 ⟨[], [], 0, 9, 0, true, 1, 0, 0, []⟩ [] ⟨1, 2⟩ db_create rfl)⟩

/-!  Claim C2 (the rated_count trigger bug). -/

/-- The 16-byte hash used by the concrete counter-runs below (sdbm maps
it to fid 0). -/
def bugHash : List Nat := List.replicate 16 0

/-- Share a file with rating 5 from client (1,2). -/
def bugShareA : Op := .share ⟨1, 2⟩ [⟨bugHash, ['a'], 1, 1, 0, true, 5, 0, 0, []⟩]

/-- Share the same file with rating 0 from client (3,4). -/
def bugShareB : Op := .share ⟨3, 4⟩ [⟨bugHash, ['a'], 1, 1, 0, false, 0, 0, 0, []⟩]

/-- The catalog after the two announcements. -/
def bugDB : DB := runOps [bugShareA, bugShareB]

/-- C2 evaluation at the failing input: after sharing a file with rating
5 and then re-sharing it with rating 0, the `sources_ai` trigger's
`ELSE 0` arm has reset the file's `rated_count` to 0, although exactly
one live source carries a non-zero rating (the claim, like the delete
trigger and the spec, requires `rated_count = 1` here). -/
theorem c2_rated_count_bug_eval :
    bugDB.files.map (fun f => f.rated_count) = [0]
    ∧ bugDB.sources.countP (fun r => r.rating != 0) = 1 := by decide

/-!  Claim C4, counterexample part. -/

/-- A single string term of length exactly MAX_NAME_TERM_LEN. -/
def boundaryTree : SearchNode := .str (List.replicate MAX_NAME_TERM_LEN 'x')

/-- Counterexample to C4 as stated: a render whose length exactly
*reaches* MAX_NAME_TERM_LEN does not fail — the check is
`name_len < MAX_NAME_TERM_LEN + 1` (the buffer size), so the search
succeeds and emits its (here empty) result set. -/
theorem c4_counterexample_boundary :
    (renderText boundaryTree).length = MAX_NAME_TERM_LEN
    ∧ db_search_files boundaryTree (fun _ _ => true) db_create 10 = some ([], 0) := by
  decide

/-!  Unfolding lemmas for the walk. -/

theorem pushChars_eq (s : List Char) (p : SearchParams) :
    pushChars s p =
      if p.name_len + s.length < MAX_NAME_TERM_LEN + 1 then some (pushF s p) else none := rfl

theorem walkCont_nil (g : Nat) (t : SearchNode) (p : SearchParams) :
    walkCont g t [] p = some (p, t) := rfl

theorem walkCont_cons (g : Nat) (t : SearchNode) (fr : Frame) (ctx : List Frame)
    (p : SearchParams) : walkCont g t (fr :: ctx) p = walkAux g (plug t fr) ctx p := rfl

theorem walkAux_str (g : Nat) (s : List Char) (ctx : List Frame) (p : SearchParams) :
    walkAux (g + 1) (.str s) ctx p =
      if p.name_len + s.length < MAX_NAME_TERM_LEN + 1 then
        walkCont g (.str s) ctx (pushF s p)
      else none := by
  by_cases hc : p.name_len + s.length < MAX_NAME_TERM_LEN + 1 <;>
    cases ctx <;>
      simp [walkAux, searchStep, pushChars, toParent, walkCont, hc]

theorem walkAux_strF (g : Nat) (k : StrFilter) (s : List Char) (ctx : List Frame)
    (p : SearchParams) :
    walkAux (g + 1) (.strF k s) ctx p
      = walkCont g (.strF k s) ctx (setStrF k (.strF k s) p) := by
  cases ctx <;> simp [walkAux, searchStep, toParent, walkCont]

theorem walkAux_numF (g : Nat) (k : NumFilter) (v : Nat) (ctx : List Frame)
    (p : SearchParams) :
    walkAux (g + 1) (.numF k v) ctx p
      = walkCont g (.numF k v) ctx (setNumF k v p) := by
  cases ctx <;> simp [walkAux, searchStep, toParent, walkCont]

theorem walkAux_enterL_false (g : Nat) (o : BoolOp) (rv : Bool) (l r : SearchNode)
    (ctx : List Frame) (p : SearchParams) :
    walkAux (g + 1) (.node o false false rv l r) ctx p
      = walkAux g l (.fromLeft o false true rv r :: ctx) p := rfl

theorem walkAux_enterL_true (g : Nat) (o : BoolOp) (rv : Bool) (l r : SearchNode)
    (ctx : List Frame) (p : SearchParams) :
    walkAux (g + 1) (.node o true false rv l r) ctx p
      = if p.name_len + 1 < MAX_NAME_TERM_LEN + 1 then
          walkAux g l (.fromLeft o true true rv r :: ctx) (pushF ['('] p)
        else none := by
  by_cases hc : p.name_len + 1 < MAX_NAME_TERM_LEN + 1 <;>
    simp [walkAux, searchStep, pushChars, hc]

theorem walkAux_enterR_false (g : Nat) (o : BoolOp) (l r : SearchNode)
    (ctx : List Frame) (p : SearchParams) :
    walkAux (g + 1) (.node o false true false l r) ctx p
      = walkAux g r (.fromRight o false true true l :: ctx) p := rfl

theorem walkAux_enterR_true (g : Nat) (o : BoolOp) (l r : SearchNode)
    (ctx : List Frame) (p : SearchParams) :
    walkAux (g + 1) (.node o true true false l r) ctx p
      = if p.name_len + (operStr o).length < MAX_NAME_TERM_LEN + 1 then
          walkAux g r (.fromRight o true true true l :: ctx) (pushF (operStr o) p)
        else none := by
  by_cases hc : p.name_len + (operStr o).length < MAX_NAME_TERM_LEN + 1 <;>
    simp [walkAux, searchStep, pushChars, hc]

theorem walkAux_finish_false (g : Nat) (o : BoolOp) (l r : SearchNode)
    (ctx : List Frame) (p : SearchParams) :
    walkAux (g + 1) (.node o false true true l r) ctx p
      = walkCont g (.node o false true true l r) ctx p := by
  cases ctx <;> simp [walkAux, searchStep, toParent, walkCont]

theorem walkAux_finish_true (g : Nat) (o : BoolOp) (l r : SearchNode)
    (ctx : List Frame) (p : SearchParams) :
    walkAux (g + 1) (.node o true true true l r) ctx p
      = if p.name_len + 1 < MAX_NAME_TERM_LEN + 1 then
          walkCont g (.node o true true true l r) ctx (pushF [')'] p)
        else none := by
  by_cases hc : p.name_len + 1 < MAX_NAME_TERM_LEN + 1 <;>
    cases ctx <;>
      simp [walkAux, searchStep, pushChars, toParent, walkCont, hc]

theorem pushF_len (s : List Char) (p : SearchParams) :
    (pushF s p).name_len = p.name_len + s.length := rfl

theorem pushF_term (s : List Char) (p : SearchParams) :
    (pushF s p).name_term = p.name_term ++ s := rfl

/-- The name length grows by exactly the rendered text of the subtree. -/
theorem afterParams_len (t : SearchNode) :
    ∀ p : SearchParams, (afterParams t p).name_len = p.name_len + (renderText t).length := by
  induction t with
  | str s => intro p; simp [afterParams, pushF, renderText]
  | strF k s => intro p; cases k <;> simp [afterParams, setStrF, renderText]
  | numF k v => intro p; cases k <;> simp [afterParams, setNumF, renderText]
  | node o st lv rv l r ihl ihr =>
    intro p
    cases st <;> simp [afterParams, pushF, renderText, ihl, ihr] <;> omega

/-- The search text grows by exactly the rendered text of the subtree. -/
theorem afterParams_term (t : SearchNode) :
    ∀ p : SearchParams, (afterParams t p).name_term = p.name_term ++ renderText t := by
  induction t with
  | str s => intro p; simp [afterParams, pushF, renderText]
  | strF k s => intro p; cases k <;> simp [afterParams, setStrF, renderText]
  | numF k v => intro p; cases k <;> simp [afterParams, setNumF, renderText]
  | node o st lv rv l r ihl ihr =>
    intro p
    cases st <;> simp [afterParams, pushF, renderText, ihl, ihr]

/-- Master lemma on the walk: on a clean subtree, with enough fuel, the
walk either consumes the subtree — emitting its rendered text, recording
its filters, setting its flags — and continues at the parent, or fails
the bound check, exactly when the text would outgrow the buffer. -/
theorem walkAux_clean : ∀ (t : SearchNode), cleanTree t = true →
    ∀ (fuel : Nat) (ctx : List Frame) (p : SearchParams),
      iters t ≤ fuel → p.name_len ≤ MAX_NAME_TERM_LEN →
      walkAux fuel t ctx p =
        if p.name_len + (renderText t).length < MAX_NAME_TERM_LEN + 1 then
          walkCont (fuel - iters t) (markDone t) ctx (afterParams t p)
        else none := by
  intro t
  induction t with
  | str s =>
    intro _ fuel ctx p hfuel hlen
    obtain ⟨g, rfl⟩ : ∃ g, fuel = g + 1 := ⟨fuel - 1, by simp [iters] at hfuel; omega⟩
    rw [walkAux_str]
    simp [renderText, markDone, afterParams, iters]
  | strF k s =>
    intro _ fuel ctx p hfuel hlen
    obtain ⟨g, rfl⟩ : ∃ g, fuel = g + 1 := ⟨fuel - 1, by simp [iters] at hfuel; omega⟩
    rw [walkAux_strF]
    rw [if_pos (by simp [renderText, MAX_NAME_TERM_LEN] at hlen ⊢; omega)]
    simp [markDone, afterParams, iters]
  | numF k v =>
    intro _ fuel ctx p hfuel hlen
    obtain ⟨g, rfl⟩ : ∃ g, fuel = g + 1 := ⟨fuel - 1, by simp [iters] at hfuel; omega⟩
    rw [walkAux_numF]
    rw [if_pos (by simp [renderText, MAX_NAME_TERM_LEN] at hlen ⊢; omega)]
    simp [markDone, afterParams, iters]
  | node o st lv rv l r ihl ihr =>
    intro hclean fuel ctx p hfuel hlen
    simp only [cleanTree, Bool.and_eq_true, Bool.not_eq_true'] at hclean
    obtain ⟨⟨⟨hlv, hrv⟩, hcl⟩, hcr⟩ := hclean
    subst hlv hrv
    simp only [iters] at hfuel ⊢
    obtain ⟨g, rfl⟩ : ∃ g, fuel = g + 1 := ⟨fuel - 1, by omega⟩
    cases st with
    | false =>
      have hLnode : (renderText (.node o false false false l r)).length
          = (renderText l).length + (renderText r).length := by
        simp [renderText]
      rw [hLnode, walkAux_enterL_false]
      rw [ihl hcl g _ p (by omega) hlen]
      by_cases hbl : p.name_len + (renderText l).length < MAX_NAME_TERM_LEN + 1
      · rw [if_pos hbl, walkCont_cons]
        simp only [plug]
        obtain ⟨g2, hg2⟩ : ∃ g2, g - iters l = g2 + 1 := ⟨g - iters l - 1, by omega⟩
        rw [hg2, walkAux_enterR_false]
        rw [ihr hcr g2 _ _ (by omega) (by rw [afterParams_len]; omega)]
        rw [afterParams_len]
        by_cases hbr : p.name_len + (renderText l).length + (renderText r).length
            < MAX_NAME_TERM_LEN + 1
        · rw [if_pos (by omega), walkCont_cons]
          simp only [plug]
          obtain ⟨g3, hg3⟩ : ∃ g3, g2 - iters r = g3 + 1 := ⟨g2 - iters r - 1, by omega⟩
          rw [hg3, walkAux_finish_false]
          rw [if_pos (by omega)]
          have hfe : g + 1 - (3 + iters l + iters r) = g3 := by omega
          rw [hfe]
          simp [markDone, afterParams]
        · rw [if_neg (by omega), if_neg (by omega)]
      · rw [if_neg hbl, if_neg (by omega)]
    | true =>
      have hLnode : (renderText (.node o true false false l r)).length
          = 1 + (renderText l).length + (operStr o).length + (renderText r).length + 1 := by
        simp [renderText]
        omega
      rw [hLnode, walkAux_enterL_true]
      by_cases hb0 : p.name_len + 1 < MAX_NAME_TERM_LEN + 1
      · rw [if_pos hb0]
        rw [ihl hcl g _ _ (by omega)
          (by rw [pushF_len]; simp only [List.length_singleton]; omega)]
        rw [pushF_len]
        simp only [List.length_singleton]
        by_cases hbl : p.name_len + 1 + (renderText l).length < MAX_NAME_TERM_LEN + 1
        · rw [if_pos hbl, walkCont_cons]
          simp only [plug]
          obtain ⟨g2, hg2⟩ : ∃ g2, g - iters l = g2 + 1 := ⟨g - iters l - 1, by omega⟩
          rw [hg2, walkAux_enterR_true]
          rw [afterParams_len, pushF_len]
          simp only [List.length_singleton]
          by_cases hbo : p.name_len + 1 + (renderText l).length + (operStr o).length
              < MAX_NAME_TERM_LEN + 1
          · rw [if_pos hbo]
            rw [ihr hcr g2 _ _ (by omega)
              (by rw [pushF_len, afterParams_len, pushF_len]
                  simp only [List.length_singleton]
                  omega)]
            rw [pushF_len, afterParams_len, pushF_len]
            simp only [List.length_singleton]
            by_cases hbr : p.name_len + 1 + (renderText l).length + (operStr o).length
                + (renderText r).length < MAX_NAME_TERM_LEN + 1
            · rw [if_pos hbr, walkCont_cons]
              simp only [plug]
              obtain ⟨g3, hg3⟩ : ∃ g3, g2 - iters r = g3 + 1 := ⟨g2 - iters r - 1, by omega⟩
              rw [hg3, walkAux_finish_true]
              rw [afterParams_len, pushF_len, afterParams_len, pushF_len]
              simp only [List.length_singleton]
              by_cases hbe : p.name_len + 1 + (renderText l).length + (operStr o).length
                  + (renderText r).length + 1 < MAX_NAME_TERM_LEN + 1
              · rw [if_pos hbe, if_pos (by omega)]
                have hfe : g + 1 - (3 + iters l + iters r) = g3 := by omega
                rw [hfe]
                simp [markDone, afterParams]
              · rw [if_neg hbe, if_neg (by omega)]
            · rw [if_neg hbr, if_neg (by omega)]
          · rw [if_neg hbo, if_neg (by omega)]
        · rw [if_neg hbl, if_neg (by omega)]
      · rw [if_neg hb0, if_neg (by omega)]

theorem iters_le (t : SearchNode) : iters t ≤ 3 * nodeCount t := by
  induction t with
  | node o st lv rv l r ihl ihr => simp [iters, nodeCount]; omega
  | str s => simp [iters, nodeCount]
  | strF k s => simp [iters, nodeCount]
  | numF k v => simp [iters, nodeCount]

/-- The compile phase on a clean tree: it succeeds exactly when the
rendered text fits the buffer, and then produces the accumulated params
and the flag-saturated tree. -/
theorem dbSearchCompile_clean (t : SearchNode) (h : cleanTree t = true) :
    dbSearchCompile t =
      if (renderText t).length < MAX_NAME_TERM_LEN + 1 then
        some (afterParams t initParams, markDone t)
      else none := by
  unfold dbSearchCompile
  rw [walkAux_clean t h _ [] initParams (le_trans (iters_le t) (by omega)) (by decide)]
  simp only [initParams, walkCont_nil, Nat.zero_add]

theorem renderText_allST (t : SearchNode) (h : allST t = true) :
    renderText t = specRender t := by
  induction t with
  | node o st lv rv l r ihl ihr =>
    simp only [allST, Bool.and_eq_true] at h
    obtain ⟨⟨hst, hl⟩, hr⟩ := h
    subst hst
    simp [renderText, specRender, ihl hl, ihr hr]
  | str s => rfl
  | strF k s => rfl
  | numF k v => rfl

/-!  Claim C6. -/

/-- C6: for every fresh SearchNode tree whose boolean-operator nodes all
have `string_term` set, a successful compile produces exactly the fully
parenthesized infix rendering of the tree — "(" before the left subtree,
the operator keyword between the subtrees, ")" after the right subtree —
so grouping follows the tree shape. -/
theorem c6_search_compiler_render (t : SearchNode) (h1 : cleanTree t = true)
    (h2 : allST t = true) (p : SearchParams) (u : SearchNode)
    (h3 : dbSearchCompile t = some (p, u)) :
    p.name_term = specRender t := by
  rw [dbSearchCompile_clean t h1] at h3
  by_cases hb : (renderText t).length < MAX_NAME_TERM_LEN + 1
  · rw [if_pos hb] at h3
    simp only [Option.some.injEq, Prod.mk.injEq] at h3
    rw [← h3.1, afterParams_term, renderText_allST t h2]
    simp [initParams]
  · rw [if_neg hb] at h3
    exact absurd h3 (by simp)

/-- The example tree of the spec, (A AND B) OR (A NOT C). -/
def exC6 : SearchNode :=
  .node .or true false false
    (.node .and true false false (.str ['A']) (.str ['B']))
    (.node .not true false false (.str ['A']) (.str ['C']))

def exC6Params : SearchParams := afterParams exC6 initParams

/-- Witness for C6 at the spec's example tree: the compiled text is the
grouped rendering, not a left-to-right flattening. -/
theorem c6_witness :
    cleanTree exC6 = true ∧ allST exC6 = true
    ∧ dbSearchCompile exC6 = some (exC6Params, markDone exC6)
    ∧ exC6Params.name_term = specRender exC6
    ∧ exC6Params.name_term = ("((A AND B) OR (A NOT C))").toList :=
  ⟨by decide, by decide, by decide,
    c6_search_compiler_render exC6 (by decide) (by decide) exC6Params (markDone exC6)
      (by decide),
    by decide⟩

/-!  Claim C4, amended theorem. -/

/-- C4 (amended): when rendering the search text would make its length
strictly exceed MAX_NAME_TERM_LEN (that is, reach the size of the
buffer, MAX_NAME_TERM_LEN + 1), db_search_files fails as a whole: it
returns failure and emits no result rows (the failure propagates before
any row streaming, so no truncated text is ever used). -/
theorem c4_overflow_fails_closed (t : SearchNode) (matchP : List Char → List Char → Bool)
    (db : DB) (n : Nat) (h1 : cleanTree t = true)
    (h2 : MAX_NAME_TERM_LEN < (renderText t).length) :
    db_search_files t matchP db n = none := by
  unfold db_search_files
  rw [dbSearchCompile_clean t h1, if_neg (by omega)]

/-- A single string term one character past the cap. -/
def overTree : SearchNode := .str (List.replicate (MAX_NAME_TERM_LEN + 1) 'x')

/-- Witness for the amended C4: a 1025-character term makes the whole
search fail with nothing emitted. -/
theorem c4_witness :
    cleanTree overTree = true ∧ MAX_NAME_TERM_LEN < (renderText overTree).length
    ∧ db_search_files overTree (fun _ _ => true) db_create 10 = none :=
  ⟨by decide, by decide,
    c4_overflow_fails_closed overTree (fun _ _ => true) db_create 10 (by decide) (by decide)⟩

/-!  Claim C10. -/

theorem allVisited_markDone (t : SearchNode) : allVisited (markDone t) = true := by
  induction t with
  | node o st lv rv l r ihl ihr => simp [markDone, allVisited, ihl, ihr]
  | str s => rfl
  | strF k s => rfl
  | numF k v => rfl

/-- C10: db_search_files mutates its input tree and never restores it.
After a completed walk of a fresh tree every operator node has both
visited flags set (`markDone`), and a second call on the returned tree
terminates after the single root visit, emitting only ")" — a different,
degenerate search text (the first call's text starts with "("). -/
theorem c10_mutated_tree_rewalk (o : BoolOp) (l r : SearchNode)
    (h1 : cleanTree l = true) (h2 : cleanTree r = true)
    (h3 : (renderText (SearchNode.node o true false false l r)).length
      < MAX_NAME_TERM_LEN + 1) :
    dbSearchCompile (SearchNode.node o true false false l r)
      = some (afterParams (SearchNode.node o true false false l r) initParams,
              markDone (SearchNode.node o true false false l r))
    ∧ allVisited (markDone (SearchNode.node o true false false l r)) = true
    ∧ dbSearchCompile (markDone (SearchNode.node o true false false l r))
      = some (pushF [')'] initParams,
              markDone (SearchNode.node o true false false l r))
    ∧ (afterParams (SearchNode.node o true false false l r) initParams).name_term
      = renderText (SearchNode.node o true false false l r)
    ∧ (pushF [')'] initParams).name_term = [')']
    ∧ renderText (SearchNode.node o true false false l r) ≠ [')'] := by
  have hct : cleanTree (SearchNode.node o true false false l r) = true := by
    simp [cleanTree, h1, h2]
  refine ⟨?_, allVisited_markDone _, ?_, ?_, by decide, ?_⟩
  · rw [dbSearchCompile_clean _ hct, if_pos h3]
  · simp only [markDone]
    unfold dbSearchCompile
    rw [walkAux_finish_true]
    rw [if_pos (by decide)]
    rw [walkCont_nil]
  · rw [afterParams_term]
    simp [initParams]
  · simp only [renderText]
    intro hcontra
    simp at hcontra

/-- Witness for C10 at a small tree (a AND b). -/
theorem c10_witness :
    cleanTree (SearchNode.str ['a']) = true ∧ cleanTree (SearchNode.str ['b']) = true
    ∧ (renderText (SearchNode.node .and true false false (.str ['a']) (.str ['b']))).length
      < MAX_NAME_TERM_LEN + 1
    ∧ (dbSearchCompile (SearchNode.node .and true false false (.str ['a']) (.str ['b']))
        = some (afterParams (SearchNode.node .and true false false (.str ['a']) (.str ['b']))
                  initParams,
                markDone (SearchNode.node .and true false false (.str ['a']) (.str ['b'])))
      ∧ allVisited (markDone (SearchNode.node .and true false false (.str ['a']) (.str ['b'])))
        = true
      ∧ dbSearchCompile (markDone (SearchNode.node .and true false false (.str ['a'])
            (.str ['b'])))
        = some (pushF [')'] initParams,
                markDone (SearchNode.node .and true false false (.str ['a']) (.str ['b'])))
      ∧ (afterParams (SearchNode.node .and true false false (.str ['a']) (.str ['b']))
            initParams).name_term
        = renderText (SearchNode.node .and true false false (.str ['a']) (.str ['b']))
      ∧ (pushF [')'] initParams).name_term = [')']
      ∧ renderText (SearchNode.node .and true false false (.str ['a']) (.str ['b'])) ≠ [')']) :=
  ⟨by decide, by decide, by decide,
    c10_mutated_tree_rewalk .and (.str ['a']) (.str ['b']) (by decide) (by decide) (by decide)⟩

/-!  Claim C9. -/

theorem setNumF_self (k : NumFilter) (p : SearchParams) (h : getNumF k p = 0) :
    setNumF k 0 p = p := by
  cases k <;> simp only [getNumF] at h <;> simp only [setNumF, ← h]

/-- A query with a min-size filter of 5: `"a" AND minsize 5`. -/
def c9Omit : SearchNode :=
  .node .and false false false (.str ['a']) (.numF .minsize 5)

/-- The same query with a zero-valued min-size filter attached:
`("a" AND minsize 5) AND minsize 0`. Omitting that zero filter gives
exactly `c9Omit`. -/
def c9With : SearchNode := .node .and false false false c9Omit (.numF .minsize 0)

/-- Counterexample to C9 as stated: a zero-valued numeric filter is not
always treated as absent. Walked after an earlier non-zero filter of the
same kind, it overwrites that filter's slot (`params.minsize = snode->int_val`),
so the compiled statement of the query containing it loses the
` AND f.size>?` clause and its bind, and differs from the statement of
the query with the zero filter omitted — even though both carry the same
MATCH text. -/
theorem c9_counterexample_overwrite :
    (dbSearchCompile c9With).map (fun r => r.1.minsize) = some 0
    ∧ (dbSearchCompile c9Omit).map (fun r => r.1.minsize) = some 5
    ∧ (dbSearchCompile c9With).map (fun r => r.1.name_term)
      = (dbSearchCompile c9Omit).map (fun r => r.1.name_term)
    ∧ (dbSearchCompile c9With).map (fun r => buildQueryText r.1)
      ≠ (dbSearchCompile c9Omit).map (fun r => buildQueryText r.1)
    ∧ (dbSearchCompile c9With).map (fun r => buildBinds r.1 10)
      ≠ (dbSearchCompile c9Omit).map (fun r => buildBinds r.1 10) := by
  decide

/-- C9 (amended): a numeric typed filter whose value is 0 contributes no
AND predicate and no bound value of its own; provided the query sets no
other filter of the same kind (a later zero-valued filter silently
overwrites an earlier non-zero one — the later-occurrence-overwrites
quirk), the query compiles to exactly the same statement as one with the
filter omitted. Formally: attaching `AND (filter k 0)` to a query tree
whose own compiled params leave slot k at 0 yields the very same
compiled params — hence the same statement text and the same bind
sequence — as the tree without the filter. -/
theorem c9_zero_filter_absent (t : SearchNode) (k : NumFilter)
    (h1 : cleanTree t = true) (h2 : (renderText t).length ≤ MAX_NAME_TERM_LEN)
    (h3 : getNumF k (afterParams t initParams) = 0) :
    dbSearchCompile (SearchNode.node .and false false false t (.numF k 0))
      = some (afterParams t initParams,
              markDone (SearchNode.node .and false false false t (.numF k 0)))
    ∧ dbSearchCompile t = some (afterParams t initParams, markDone t)
    ∧ buildQueryText
        (afterParams (SearchNode.node .and false false false t (.numF k 0)) initParams)
      = buildQueryText (afterParams t initParams)
    ∧ ∀ n, buildBinds
        (afterParams (SearchNode.node .and false false false t (.numF k 0)) initParams) n
      = buildBinds (afterParams t initParams) n := by
  have hA : afterParams (SearchNode.node .and false false false t (.numF k 0)) initParams
      = afterParams t initParams := by
    simp only [afterParams, if_neg Bool.false_ne_true]
    exact setNumF_self k _ h3
  have hct : cleanTree (SearchNode.node .and false false false t (.numF k 0)) = true := by
    simp [cleanTree, h1]
  have hrt : renderText (SearchNode.node .and false false false t (.numF k 0))
      = renderText t := by
    simp [renderText]
  refine ⟨?_, ?_, by rw [hA], fun n => by rw [hA]⟩
  · rw [dbSearchCompile_clean _ hct, hrt, if_pos (by omega), hA]
  · rw [dbSearchCompile_clean t h1, if_pos (by omega)]

/-- Witness for C9: a minsize-0 filter attached to the single-term query
"a" compiles to the same params as the bare term. -/
theorem c9_witness :
    cleanTree (SearchNode.str ['a']) = true
    ∧ (renderText (SearchNode.str ['a'])).length ≤ MAX_NAME_TERM_LEN
    ∧ getNumF .minsize (afterParams (SearchNode.str ['a']) initParams) = 0
    ∧ (dbSearchCompile (SearchNode.node .and false false false (SearchNode.str ['a'])
          (.numF .minsize 0))
        = some (afterParams (SearchNode.str ['a']) initParams,
                markDone (SearchNode.node .and false false false (SearchNode.str ['a'])
                  (.numF .minsize 0)))
      ∧ dbSearchCompile (SearchNode.str ['a'])
        = some (afterParams (SearchNode.str ['a']) initParams,
                markDone (SearchNode.str ['a']))
      ∧ buildQueryText (afterParams (SearchNode.node .and false false false
            (SearchNode.str ['a']) (.numF .minsize 0)) initParams)
        = buildQueryText (afterParams (SearchNode.str ['a']) initParams)
      ∧ ∀ n, buildBinds (afterParams (SearchNode.node .and false false false
            (SearchNode.str ['a']) (.numF .minsize 0)) initParams) n
        = buildBinds (afterParams (SearchNode.str ['a']) initParams) n) :=
  ⟨by decide, by decide, by decide,
    c9_zero_filter_absent (SearchNode.str ['a']) .minsize (by decide) (by decide) (by decide)⟩

/-!  Claim C5. -/

/-- The streaming loop consumes its whole row list when the limit is not
smaller, emitting every row normalised. -/
theorem execEmit_all (db : DB) : ∀ (rows : List FileRow) (i n : Nat),
    rows.length + i ≤ n →
    execEmit db rows i n = (rows.map (mkSearchFile db), i + rows.length) := by
  intro rows
  induction rows with
  | nil => intro i n h; simp [execEmit]
  | cons f rest ih =>
    intro i n h
    simp only [List.length_cons] at h
    rw [execEmit, if_pos (by omega), ih (i + 1) n (by omega)]
    simp
    omega

/-- C5: a db_search_files call whose compile succeeds, with requested
maximum n against a catalog where the compiled query matches M rows,
succeeds, emits exactly min n M rows into the output buffer and writes
min n M back through the count out-parameter (it stops at n rows or at
query exhaustion, whichever comes first). -/
theorem c5_result_limit (t : SearchNode) (matchP : List Char → List Char → Bool)
    (db : DB) (n : Nat) (p : SearchParams) (u : SearchNode)
    (h : dbSearchCompile t = some (p, u)) :
    db_search_files t matchP db n
      = some (((searchRows matchP db p).take n).map (mkSearchFile db),
              min n (searchRows matchP db p).length)
    ∧ (((searchRows matchP db p).take n).map (mkSearchFile db)).length
      = min n (searchRows matchP db p).length := by
  have hlen : ((searchRows matchP db p).take n).length
      = min n (searchRows matchP db p).length := by
    simp [List.length_take]
  have hexec := execEmit_all db ((searchRows matchP db p).take n) 0 n
    (by rw [hlen]; omega)
  constructor
  · unfold db_search_files
    rw [h]
    simp only [hexec, Nat.zero_add, hlen]
    rw [if_pos (by simp)]
  · rw [List.length_map, hlen]

/-- Witness for C5: the one-term search "a" against the empty catalog
with limit 5 returns 0 = min 5 0 rows. -/
theorem c5_witness :
    dbSearchCompile (SearchNode.str ['a']) = some (pushF ['a'] initParams, .str ['a'])
    ∧ (db_search_files (SearchNode.str ['a']) (fun _ _ => true) db_create 5
        = some (((searchRows (fun _ _ => true) db_create (pushF ['a'] initParams)).take 5).map
                  (mkSearchFile db_create),
                min 5 (searchRows (fun _ _ => true) db_create
                  (pushF ['a'] initParams)).length)
      ∧ (((searchRows (fun _ _ => true) db_create (pushF ['a'] initParams)).take 5).map
            (mkSearchFile db_create)).length
        = min 5 (searchRows (fun _ _ => true) db_create (pushF ['a'] initParams)).length) :=
  ⟨by decide,
    c5_result_limit (SearchNode.str ['a']) (fun _ _ => true) db_create 5
      (pushF ['a'] initParams) (.str ['a']) (by decide)⟩

/-!  Aggregate bookkeeping lemmas. -/

theorem srcCount_cons_match {r : SourceRow} {S : List SourceRow} {fid0 : Nat}
    (h : r.fid = fid0) : srcCount (r :: S) fid0 = srcCount S fid0 + 1 := by
  simp [srcCount, List.countP_cons, h]

theorem srcCount_cons_nomatch {r : SourceRow} {S : List SourceRow} {fid0 : Nat}
    (h : ¬r.fid = fid0) : srcCount (r :: S) fid0 = srcCount S fid0 := by
  simp [srcCount, List.countP_cons, h]

theorem srcCompleteCount_cons_match {r : SourceRow} {S : List SourceRow} {fid0 : Nat}
    (h : r.fid = fid0) :
    srcCompleteCount (r :: S) fid0
      = srcCompleteCount S fid0 + (if r.complete then 1 else 0) := by
  by_cases hc : r.complete <;> simp [srcCompleteCount, List.countP_cons, h, hc]

theorem srcCompleteCount_cons_nomatch {r : SourceRow} {S : List SourceRow} {fid0 : Nat}
    (h : ¬r.fid = fid0) : srcCompleteCount (r :: S) fid0 = srcCompleteCount S fid0 := by
  simp [srcCompleteCount, List.countP_cons, h]

theorem srcRatingSum_cons_match {r : SourceRow} {S : List SourceRow} {fid0 : Nat}
    (h : r.fid = fid0) : srcRatingSum (r :: S) fid0 = r.rating + srcRatingSum S fid0 := by
  simp [srcRatingSum, List.filter_cons, h]

theorem srcRatingSum_cons_nomatch {r : SourceRow} {S : List SourceRow} {fid0 : Nat}
    (h : ¬r.fid = fid0) : srcRatingSum (r :: S) fid0 = srcRatingSum S fid0 := by
  simp [srcRatingSum, List.filter_cons, h]

theorem srcCount_append_match {r : SourceRow} {S : List SourceRow} {fid0 : Nat}
    (h : r.fid = fid0) : srcCount (S ++ [r]) fid0 = srcCount S fid0 + 1 := by
  simp [srcCount, List.countP_append, List.countP_cons, h]

theorem srcCount_append_nomatch {r : SourceRow} {S : List SourceRow} {fid0 : Nat}
    (h : ¬r.fid = fid0) : srcCount (S ++ [r]) fid0 = srcCount S fid0 := by
  simp [srcCount, List.countP_append, List.countP_cons, h]

theorem srcCompleteCount_append_match {r : SourceRow} {S : List SourceRow} {fid0 : Nat}
    (h : r.fid = fid0) :
    srcCompleteCount (S ++ [r]) fid0
      = srcCompleteCount S fid0 + (if r.complete then 1 else 0) := by
  by_cases hc : r.complete <;>
    simp [srcCompleteCount, List.countP_append, List.countP_cons, h, hc]

theorem srcCompleteCount_append_nomatch {r : SourceRow} {S : List SourceRow} {fid0 : Nat}
    (h : ¬r.fid = fid0) : srcCompleteCount (S ++ [r]) fid0 = srcCompleteCount S fid0 := by
  simp [srcCompleteCount, List.countP_append, List.countP_cons, h]

theorem srcRatingSum_append_match {r : SourceRow} {S : List SourceRow} {fid0 : Nat}
    (h : r.fid = fid0) : srcRatingSum (S ++ [r]) fid0 = srcRatingSum S fid0 + r.rating := by
  simp [srcRatingSum, List.filter_append, List.filter_cons, h]

theorem srcRatingSum_append_nomatch {r : SourceRow} {S : List SourceRow} {fid0 : Nat}
    (h : ¬r.fid = fid0) : srcRatingSum (S ++ [r]) fid0 = srcRatingSum S fid0 := by
  simp [srcRatingSum, List.filter_append, List.filter_cons, h]

theorem aggOK_perm {S S2 : List SourceRow} (hp : S.Perm S2) (f : FileRow) :
    aggOK S f → aggOK S2 f := by
  intro ⟨h1, h2, h3⟩
  refine ⟨?_, ?_, ?_⟩
  · rw [h1]; unfold srcCount; rw [hp.countP_eq]
  · rw [h2]; unfold srcCompleteCount; rw [hp.countP_eq]
  · rw [h3]
    unfold srcRatingSum
    exact ((hp.filter (fun r => r.fid == f.fid)).map (fun r : SourceRow => r.rating)).sum_eq

theorem invRel_perm {files : List FileRow} {fnames : List (Nat × List Char)}
    {S S2 : List SourceRow} (hp : S.Perm S2) :
    InvRel files fnames S → InvRel files fnames S2 := by
  intro ⟨h1, h2, h3⟩
  refine ⟨fun f hf => ⟨aggOK_perm hp f (h1 f hf).1, (h1 f hf).2⟩, h2, fun r hr => h3 r (hp.mem_iff.mpr hr)⟩

/-!  Behaviour of updFiles. -/

theorem updFiles_sources (fid0 : Nat) (gfun : FileRow → FileRow) (db : DB) :
    (updFiles fid0 gfun db).sources = db.sources := by
  simp only [updFiles]
  split <;> rfl

/-- When the update keeps names and leaves no touched row at
`srcavail = 0`, updFiles is the plain row map (no trigger cascades). -/
theorem updFiles_eq_simple (fid0 : Nat) (gfun : FileRow → FileRow) (db : DB)
    (hname : ∀ x, (gfun x).name = x.name)
    (hfid : ∀ x, (gfun x).fid = x.fid)
    (hz : ∀ f ∈ db.files, f.fid = fid0 → ¬(gfun f).srcavail = 0) :
    updFiles fid0 gfun db
      = { db with files := db.files.map (fun f => if f.fid == fid0 then gfun f else f) } := by
  have h1 : db.files.any (fun f => f.fid == fid0 && (gfun f).name != f.name) = false := by
    rw [List.any_eq_false]
    intro f _
    simp [hname]
  have h2 : (db.files.map (fun f => if f.fid == fid0 then gfun f else f)).any
      (fun f => f.fid == fid0 && f.srcavail == 0) = false := by
    rw [List.any_eq_false]
    intro row hrow
    obtain ⟨f, hf, rfl⟩ := List.mem_map.mp hrow
    by_cases hf0 : f.fid = fid0
    · simp only [hf0, beq_self_eq_true, if_true]
      simp [hfid, hf0, hz f hf hf0]
    · simp [hf0]
  simp only [updFiles]
  rw [h1, h2]
  simp

/-!  The delete side: one source-row deletion preserves the invariant. -/

theorem invRel_delete_step (r : SourceRow) (S : List SourceRow) (db : DB)
    (h : InvRel db.files db.fnames (r :: S)) :
    InvRel (updFiles r.fid (decrFor r) db).files
      (updFiles r.fid (decrFor r) db).fnames S := by
  obtain ⟨hagg, hnames, horph⟩ := h
  have hdecr_fid : ∀ x : FileRow, (decrFor r x).fid = x.fid := fun x => rfl
  have hdecr_name : ∀ x : FileRow, (decrFor r x).name = x.name := fun x => rfl
  -- the aggregates of a matched row after the decrement
  have hmatch : ∀ f ∈ db.files, f.fid = r.fid →
      aggOK S (decrFor r f) ∧ (decrFor r f).srcavail = (srcCount S f.fid : Int) := by
    intro f hf hfid
    obtain ⟨⟨a1, a2, a3⟩, _⟩ := hagg f hf
    rw [srcCount_cons_match hfid.symm] at a1
    rw [srcCompleteCount_cons_match hfid.symm] at a2
    rw [srcRatingSum_cons_match hfid.symm] at a3
    have e1 : (decrFor r f).srcavail = (srcCount S f.fid : Int) := by
      simp only [decrFor]
      push_cast at a1 ⊢
      omega
    refine ⟨⟨e1, ?_, ?_⟩, e1⟩
    · simp only [decrFor, hdecr_fid]
      by_cases hc : r.complete <;> simp [hc] at a2 ⊢ <;> omega
    · simp only [decrFor, hdecr_fid]
      rw [a3]; ring
  have hmis : ∀ f ∈ db.files, ¬f.fid = r.fid → aggOK S f := by
    intro f hf hfid
    obtain ⟨⟨a1, a2, a3⟩, _⟩ := hagg f hf
    rw [srcCount_cons_nomatch (fun hh => hfid hh.symm)] at a1
    rw [srcCompleteCount_cons_nomatch (fun hh => hfid hh.symm)] at a2
    rw [srcRatingSum_cons_nomatch (fun hh => hfid hh.symm)] at a3
    exact ⟨a1, a2, a3⟩
  -- mapped rows
  set files1 := db.files.map (fun f => if f.fid == r.fid then decrFor r f else f) with hfiles1
  have hNameAny : db.files.any (fun f => f.fid == r.fid && (decrFor r f).name != f.name)
      = false := by
    rw [List.any_eq_false]; intro f _; simp [hdecr_name]
  by_cases hzero : files1.any (fun f => f.fid == r.fid && f.srcavail == 0) = true
  case neg =>
    -- no cascade: result is the plain map, fnames untouched
    have hzero2 : files1.any (fun f => f.fid == r.fid && f.srcavail == 0) = false := by
      simpa using hzero
    have heq : updFiles r.fid (decrFor r) db = { db with files := files1 } := by
      simp only [updFiles]
      rw [hNameAny, hfiles1] at *
      rw [hzero2]
      simp
    rw [heq]
    refine ⟨?_, ?_, ?_⟩
    · intro g hg
      obtain ⟨f, hf, rfl⟩ := List.mem_map.mp hg
      by_cases hfid : f.fid = r.fid
      · simp only [hfid, beq_self_eq_true, if_true]
        obtain ⟨hOK, he1⟩ := hmatch f hf hfid
        refine ⟨hOK, ?_⟩
        -- positivity: the mapped row survived, so its srcavail is not 0
        have hmem1 : decrFor r f ∈ files1 := by
          rw [hfiles1]
          have hmm := List.mem_map_of_mem
            (fun f => if f.fid == r.fid then decrFor r f else f) hf
          have hgf : (fun x : FileRow => if x.fid == r.fid then decrFor r x else x) f
              = decrFor r f := by simp [hfid]
          exact hgf ▸ hmm
        have hne : ¬(decrFor r f).srcavail = 0 := by
          intro h0
          apply hzero
          rw [List.any_eq_true]
          exact ⟨decrFor r f, hmem1, by simp [hdecr_fid, hfid, h0]⟩
        have hge : (0 : Int) ≤ (srcCount S f.fid : Int) := by positivity
        rw [he1] at hne ⊢
        omega
      · simp only [beq_iff_eq, hfid, if_false]
        exact ⟨hmis f hf hfid, (hagg f hf).2⟩
    · intro e he
      obtain ⟨f, hf, hefid⟩ := hnames e he
      refine ⟨(if f.fid == r.fid then decrFor r f else f), List.mem_map_of_mem _ hf, ?_⟩
      by_cases hfid : f.fid = r.fid
      · rw [if_pos (by simp [hfid])]; rw [hdecr_fid]; exact hefid
      · rw [if_neg (by simp [hfid])]; exact hefid
    · intro s hs
      obtain ⟨f, hf, hsfid⟩ := horph s (List.mem_cons_of_mem r hs)
      refine ⟨(if f.fid == r.fid then decrFor r f else f), List.mem_map_of_mem _ hf, ?_⟩
      by_cases hfid : f.fid = r.fid
      · rw [if_pos (by simp [hfid])]; rw [hdecr_fid]; exact hsfid
      · rw [if_neg (by simp [hfid])]; exact hsfid
  case pos =>
    -- cascade: some touched row hit zero, all rows of that fid are deleted
    have heq : updFiles r.fid (decrFor r) db
        = { files := files1.filter (fun f => f.fid != r.fid),
            fnames := db.fnames.filter (fun e => e.1 != r.fid),
            sources := db.sources } := by
      simp only [updFiles]
      rw [hNameAny, hfiles1] at *
      rw [hzero]
      simp
    -- after the cascade no source in S can still carry the dead fid
    have hSzero : srcCount S r.fid = 0 := by
      rw [List.any_eq_true] at hzero
      obtain ⟨row, hrow, hrowp⟩ := hzero
      obtain ⟨f, hf, rfl⟩ := List.mem_map.mp hrow
      simp only [Bool.and_eq_true, beq_iff_eq] at hrowp
      by_cases hfid : f.fid = r.fid
      · simp only [hfid, beq_self_eq_true, if_true] at hrowp
        obtain ⟨_, hz0⟩ := hrowp
        obtain ⟨_, he1⟩ := hmatch f hf hfid
        rw [hfid] at he1
        rw [he1] at hz0
        exact_mod_cast hz0
      · simp [hfid] at hrowp
    rw [heq]
    refine ⟨?_, ?_, ?_⟩
    · intro g hg
      obtain ⟨hg1, hg2⟩ := List.mem_filter.mp hg
      obtain ⟨f, hf, rfl⟩ := List.mem_map.mp hg1
      by_cases hfid : f.fid = r.fid
      · exfalso
        simp [hfid, hdecr_fid] at hg2
      · simp only [beq_iff_eq, hfid, if_false] at hg2 ⊢
        exact ⟨hmis f hf hfid, (hagg f hf).2⟩
    · intro e he
      obtain ⟨he1, he2⟩ := List.mem_filter.mp he
      obtain ⟨f, hf, hefid⟩ := hnames e he1
      have hfid : ¬f.fid = r.fid := by
        simp only [bne_iff_ne, ne_eq] at he2
        rw [hefid]; exact he2
      refine ⟨f, List.mem_filter.mpr ⟨?_, by simp [hfid]⟩, hefid⟩
      have hmm := List.mem_map_of_mem (fun f => if f.fid == r.fid then decrFor r f else f) hf
      have hgf : (fun x : FileRow => if x.fid == r.fid then decrFor r x else x) f = f := by
        simp [hfid]
      exact hgf ▸ hmm
    · intro s hs
      by_cases hsr : s.fid = r.fid
      · exfalso
        have : 0 < srcCount S r.fid := by
          unfold srcCount
          rw [List.countP_pos_iff]
          exact ⟨s, hs, by simp [hsr]⟩
        omega
      · obtain ⟨f, hf, hsfid⟩ := horph s (List.mem_cons_of_mem r hs)
        have hfid : ¬f.fid = r.fid := by rw [hsfid]; exact hsr
        refine ⟨f, List.mem_filter.mpr ⟨?_, by simp [hfid]⟩, hsfid⟩
        have hmm := List.mem_map_of_mem (fun f => if f.fid == r.fid then decrFor r f else f) hf
        have hgf : (fun x : FileRow => if x.fid == r.fid then decrFor r x else x) f = f := by
          simp [hfid]
        exact hgf ▸ hmm

/-!  The remove fold. -/

theorem removeSrcAux_sources (sid0 : Nat) : ∀ (rows : List SourceRow) (db : DB),
    (removeSrcAux sid0 rows db).sources
      = rows.filter (fun r => !(r.sid == sid0)) ++ db.sources := by
  intro rows
  induction rows with
  | nil => intro db; simp [removeSrcAux]
  | cons r rest ih =>
    intro db
    by_cases hs : r.sid = sid0
    · rw [show removeSrcAux sid0 (r :: rest) db
          = removeSrcAux sid0 rest (updFiles r.fid (decrFor r) db) from by
        simp [removeSrcAux, hs]]
      rw [ih, updFiles_sources]
      simp [hs]
    · rw [show removeSrcAux sid0 (r :: rest) db
          = { removeSrcAux sid0 rest db with
              sources := r :: (removeSrcAux sid0 rest db).sources } from by
        simp [removeSrcAux, hs]]
      simp only [ih]
      simp [List.filter_cons, hs]

theorem removeSrcAux_invRel (sid0 : Nat) : ∀ (rows extra : List SourceRow) (db : DB),
    InvRel db.files db.fnames (rows ++ extra) →
    InvRel (removeSrcAux sid0 rows db).files (removeSrcAux sid0 rows db).fnames
      (rows.filter (fun r => !(r.sid == sid0)) ++ extra) := by
  intro rows
  induction rows with
  | nil => intro extra db h; simpa [removeSrcAux] using h
  | cons r rest ih =>
    intro extra db h
    by_cases hs : r.sid = sid0
    · have h2 := invRel_delete_step r (rest ++ extra) db h
      have h3 := ih extra (updFiles r.fid (decrFor r) db) h2
      rw [show removeSrcAux sid0 (r :: rest) db
          = removeSrcAux sid0 rest (updFiles r.fid (decrFor r) db) from by
        simp [removeSrcAux, hs]]
      rw [show (r :: rest).filter (fun r => !(r.sid == sid0))
          = rest.filter (fun r => !(r.sid == sid0)) from by simp [List.filter_cons, hs]]
      exact h3
    · have hperm1 : ((r :: rest) ++ extra).Perm (rest ++ (r :: extra)) := by
        rw [List.cons_append]
        exact List.perm_middle.symm
      have h3 := ih (r :: extra) db (invRel_perm hperm1 h)
      have hperm2 : (rest.filter (fun r => !(r.sid == sid0)) ++ (r :: extra)).Perm
          ((r :: rest.filter (fun r => !(r.sid == sid0))) ++ extra) := by
        rw [List.cons_append]
        exact List.perm_middle
      have h4 := invRel_perm hperm2 h3
      rw [show removeSrcAux sid0 (r :: rest) db
          = { removeSrcAux sid0 rest db with
              sources := r :: (removeSrcAux sid0 rest db).sources } from by
        simp [removeSrcAux, hs]]
      rw [show (r :: rest).filter (fun r => !(r.sid == sid0))
          = r :: rest.filter (fun r => !(r.sid == sid0)) from by
        simp [List.filter_cons, hs]]
      exact h4

/-- db_remove_source preserves the catalog invariant. -/
theorem inv_remove (c : Client) (db : DB) (h : Inv db) : Inv (db_remove_source c db) := by
  unfold db_remove_source Inv
  have h1 := removeSrcAux_invRel (MAKE_SID c) db.sources [] { db with sources := [] }
    (by simpa using h)
  rw [removeSrcAux_sources]
  simpa using h1

/-!  The share side. -/

/-- When no touched row ends at `srcavail = 0`, updFiles does not fire
`files_au`: it is the plain row map plus the fts name resync. -/
theorem updFiles_no_cascade (fid0 : Nat) (gfun : FileRow → FileRow) (db : DB)
    (hfid : ∀ x, (gfun x).fid = x.fid)
    (hz : ∀ f ∈ db.files, f.fid = fid0 → ¬(gfun f).srcavail = 0) :
    updFiles fid0 gfun db
      = { db with
          files := db.files.map (fun f => if f.fid == fid0 then gfun f else f),
          fnames :=
            if db.files.any (fun f => f.fid == fid0 && (gfun f).name != f.name) then
              db.fnames.filter (fun e => e.1 != fid0)
                ++ ((db.files.map (fun f => if f.fid == fid0 then gfun f else f)).filter
                    (fun f => f.fid == fid0)).map (fun f => (f.fid, f.name))
            else db.fnames } := by
  have h2 : (db.files.map (fun f => if f.fid == fid0 then gfun f else f)).any
      (fun f => f.fid == fid0 && f.srcavail == 0) = false := by
    rw [List.any_eq_false]
    intro row hrow
    obtain ⟨f, hf, rfl⟩ := List.mem_map.mp hrow
    by_cases hf0 : f.fid = fid0
    · simp only [hf0, beq_self_eq_true, if_true]
      simp [hfid, hf0, hz f hf hf0]
    · simp [hf0]
  simp only [updFiles]
  rw [h2]
  simp

/-- A meta-data update (SHARE_UPD) that leaves fid and all aggregate
columns alone preserves the invariant, and keeps any fid present. -/
theorem inv_updMeta (fid0 : Nat) (gfun : FileRow → FileRow) (db : DB) (h : Inv db)
    (hfid : ∀ x, (gfun x).fid = x.fid)
    (hsa : ∀ x, (gfun x).srcavail = x.srcavail)
    (hsc : ∀ x, (gfun x).srccomplete = x.srccomplete)
    (hrt : ∀ x, (gfun x).rating = x.rating) :
    Inv (updFiles fid0 gfun db)
    ∧ ∀ fid1, (∃ fr ∈ db.files, fr.fid = fid1)
      → ∃ fr ∈ (updFiles fid0 gfun db).files, fr.fid = fid1 := by
  obtain ⟨hagg, hnames, horph⟩ := h
  have hz : ∀ f ∈ db.files, f.fid = fid0 → ¬(gfun f).srcavail = 0 := by
    intro f hf _
    rw [hsa]
    have := (hagg f hf).2
    omega
  rw [updFiles_no_cascade fid0 gfun db hfid hz]
  have hrow : ∀ f ∈ db.files,
      (if f.fid == fid0 then gfun f else f) ∈
        db.files.map (fun f => if f.fid == fid0 then gfun f else f)
      ∧ (if f.fid == fid0 then gfun f else f).fid = f.fid
      ∧ aggOK db.sources (if f.fid == fid0 then gfun f else f)
      ∧ 1 ≤ (if f.fid == fid0 then gfun f else f).srcavail := by
    intro f hf
    refine ⟨List.mem_map_of_mem _ hf, ?_, ?_, ?_⟩
    · by_cases hf0 : f.fid = fid0 <;> simp [hf0, hfid]
    · obtain ⟨⟨a1, a2, a3⟩, _⟩ := hagg f hf
      by_cases hf0 : f.fid = fid0
      · simp only [hf0, beq_self_eq_true, if_true]
        exact ⟨by rw [hsa, hfid]; exact a1,
          by rw [hsc, hfid]; exact a2,
          by rw [hrt, hfid]; exact a3⟩
      · simp only [beq_iff_eq, hf0, if_false]
        exact ⟨a1, a2, a3⟩
    · by_cases hf0 : f.fid = fid0
      · simp only [hf0, beq_self_eq_true, if_true]
        rw [hsa]
        exact (hagg f hf).2
      · simp only [beq_iff_eq, hf0, if_false]
        exact (hagg f hf).2
  constructor
  · refine ⟨?_, ?_, ?_⟩
    · intro g hg
      obtain ⟨f, hf, rfl⟩ := List.mem_map.mp hg
      exact ⟨(hrow f hf).2.2.1, (hrow f hf).2.2.2⟩
    · intro e he
      dsimp only at he
      split at he
      · rcases List.mem_append.mp he with he1 | he2
        · obtain ⟨he1, hkeep⟩ := List.mem_filter.mp he1
          obtain ⟨f, hf, hefid⟩ := hnames e he1
          exact ⟨_, (hrow f hf).1, by rw [(hrow f hf).2.1]; exact hefid⟩
        · obtain ⟨f1, hf1, rfl⟩ := List.mem_map.mp he2
          exact ⟨f1, (List.mem_filter.mp hf1).1, rfl⟩
      · obtain ⟨f, hf, hefid⟩ := hnames e he
        exact ⟨_, (hrow f hf).1, by rw [(hrow f hf).2.1]; exact hefid⟩
    · intro s hs
      obtain ⟨f, hf, hsfid⟩ := horph s hs
      exact ⟨_, (hrow f hf).1, by rw [(hrow f hf).2.1]; exact hsfid⟩
  · intro fid1 ⟨fr, hfr, hfr1⟩
    exact ⟨_, (hrow fr hfr).1, by rw [(hrow fr hfr).2.1]; exact hfr1⟩

/-- Inserting a source row for a file that exists preserves the
invariant (the `sources_ai` increments line up with the appended row,
and `files_au` cannot fire because srcavail goes up). -/
theorem inv_insertSource (fid0 sid0 : Nat) (cpl : Bool) (rt : Int) (db : DB) (h : Inv db)
    (hex : ∃ fr ∈ db.files, fr.fid = fid0) : Inv (insertSource fid0 sid0 cpl rt db) := by
  obtain ⟨hagg, hnames, horph⟩ := h
  unfold insertSource
  set incr := fun f : FileRow =>
    { f with
        srcavail := f.srcavail + 1,
        srccomplete := f.srccomplete + (if cpl then 1 else 0),
        rating := f.rating + rt,
        rated_count := if rt ≠ 0 then f.rated_count + 1 else 0 } with hincr
  set db2 : DB := { db with sources := db.sources ++ [⟨fid0, sid0, cpl, rt⟩] } with hdb2
  have hfid : ∀ x, (incr x).fid = x.fid := fun x => rfl
  have hz : ∀ f ∈ db2.files, f.fid = fid0 → ¬(incr f).srcavail = 0 := by
    intro f hf _
    have h0 := (hagg f hf).2
    simp only [hincr]
    omega
  rw [updFiles_no_cascade fid0 incr db2 hfid hz]
  have hnochange : (db2.files.any (fun f => f.fid == fid0 && (incr f).name != f.name))
      = false := by
    rw [List.any_eq_false]
    intro f _
    simp [hincr]
  rw [hnochange]
  have hrow : ∀ f ∈ db.files,
      (if f.fid == fid0 then incr f else f) ∈
        db.files.map (fun f => if f.fid == fid0 then incr f else f)
      ∧ (if f.fid == fid0 then incr f else f).fid = f.fid
      ∧ aggOK (db.sources ++ [⟨fid0, sid0, cpl, rt⟩]) (if f.fid == fid0 then incr f else f)
      ∧ 1 ≤ (if f.fid == fid0 then incr f else f).srcavail := by
    intro f hf
    obtain ⟨⟨a1, a2, a3⟩, apos⟩ := hagg f hf
    refine ⟨List.mem_map_of_mem _ hf, ?_, ?_, ?_⟩
    · by_cases hf0 : f.fid = fid0 <;> simp [hf0, hfid]
    · by_cases hf0 : f.fid = fid0
      · simp only [hf0, beq_self_eq_true, if_true]
        refine ⟨?_, ?_, ?_⟩
        · rw [show (incr f).fid = fid0 from by rw [hfid]; exact hf0,
            srcCount_append_match rfl]
          simp only [hincr]
          rw [a1, hf0]
          push_cast
          try ring
        · rw [show (incr f).fid = fid0 from by rw [hfid]; exact hf0,
            srcCompleteCount_append_match rfl]
          simp only [hincr]
          rw [a2, hf0]
          by_cases hc : cpl <;> simp only [hc, if_true, if_false] <;> push_cast <;> try ring
        · rw [show (incr f).fid = fid0 from by rw [hfid]; exact hf0,
            srcRatingSum_append_match rfl]
          simp only [hincr]
          rw [a3, hf0]
          try ring
      · simp only [beq_iff_eq, hf0, if_false]
        have hne : ¬(⟨fid0, sid0, cpl, rt⟩ : SourceRow).fid = f.fid := fun hh => hf0 hh.symm
        exact ⟨by rw [srcCount_append_nomatch hne]; exact a1,
          by rw [srcCompleteCount_append_nomatch hne]; exact a2,
          by rw [srcRatingSum_append_nomatch hne]; exact a3⟩
    · by_cases hf0 : f.fid = fid0
      · simp only [hf0, beq_self_eq_true, if_true]
        omega
      · simp only [beq_iff_eq, hf0, if_false]
        exact apos
  refine ⟨?_, ?_, ?_⟩
  · intro g hg
    obtain ⟨f, hf, rfl⟩ := List.mem_map.mp hg
    exact ⟨(hrow f hf).2.2.1, (hrow f hf).2.2.2⟩
  · intro e he
    obtain ⟨f, hf, hefid⟩ := hnames e he
    exact ⟨_, (hrow f hf).1, by rw [(hrow f hf).2.1]; exact hefid⟩
  · intro s hs
    rcases List.mem_append.mp hs with hs1 | hs2
    · obtain ⟨f, hf, hsfid⟩ := horph s hs1
      exact ⟨_, (hrow f hf).1, by rw [(hrow f hf).2.1]; exact hsfid⟩
    · obtain ⟨fr, hfr, hfr0⟩ := hex
      have hse : s = ⟨fid0, sid0, cpl, rt⟩ := by simpa using hs2
      refine ⟨_, (hrow fr hfr).1, ?_⟩
      rw [(hrow fr hfr).2.1, hfr0, hse]

/-- Sharing a file unknown to the catalog (SHARE_INS then SHARE_SRC)
preserves the invariant. -/
theorem inv_share_fresh (pf : PubFile) (sid0 : Nat) (db : DB) (h : Inv db)
    (hnohit : db.files.any (fun r => r.fid == MAKE_FID pf.hash) = false) :
    Inv (insertSource (MAKE_FID pf.hash) sid0 pf.complete pf.rating (shareIns pf db)) := by
  obtain ⟨hagg, hnames, horph⟩ := h
  have hnof : ∀ fr ∈ db.files, ¬fr.fid = MAKE_FID pf.hash := by
    rw [List.any_eq_false] at hnohit
    intro fr hfr
    simpa using hnohit fr hfr
  have hnosnil : db.sources.filter (fun r => r.fid == MAKE_FID pf.hash) = [] := by
    rw [List.filter_eq_nil_iff]
    intro s hs
    obtain ⟨fr, hfr, hsf⟩ := horph s hs
    simp [← hsf, hnof fr hfr]
  have hnos : srcCount db.sources (MAKE_FID pf.hash) = 0 := by
    unfold srcCount
    rw [List.countP_eq_zero]
    intro s hs
    obtain ⟨fr, hfr, hsf⟩ := horph s hs
    simp [← hsf, hnof fr hfr]
  have hnosc : srcCompleteCount db.sources (MAKE_FID pf.hash) = 0 := by
    unfold srcCompleteCount
    rw [List.countP_eq_zero]
    intro s hs
    obtain ⟨fr, hfr, hsf⟩ := horph s hs
    simp [← hsf, hnof fr hfr]
  have hnosr : srcRatingSum db.sources (MAKE_FID pf.hash) = 0 := by
    unfold srcRatingSum
    rw [hnosnil]
    simp
  unfold insertSource shareIns
  set F := MAKE_FID pf.hash with hF
  set incr := fun f : FileRow =>
    { f with
        srcavail := f.srcavail + 1,
        srccomplete := f.srccomplete + (if pf.complete then 1 else 0),
        rating := f.rating + pf.rating,
        rated_count := if pf.rating ≠ 0 then f.rated_count + 1 else 0 } with hincr
  have hfidI : ∀ x, (incr x).fid = x.fid := fun x => rfl
  have hz : ∀ f ∈ db.files ++ [newFileRow pf], f.fid = F → ¬(incr f).srcavail = 0 := by
    intro f hf hf0
    rcases List.mem_append.mp hf with h1 | h2
    · exact absurd hf0 (hnof f h1)
    · have hfeq : f = newFileRow pf := by simpa using h2
      subst hfeq
      simp [hincr, newFileRow]
  rw [updFiles_no_cascade F incr _ hfidI hz]
  have hnochange : ((db.files ++ [newFileRow pf]).any
      (fun f => f.fid == F && (incr f).name != f.name)) = false := by
    rw [List.any_eq_false]
    intro f _
    simp [hincr]
  rw [hnochange]
  have hmap : (db.files ++ [newFileRow pf]).map
      (fun f => if f.fid == F then incr f else f)
      = db.files ++ [incr (newFileRow pf)] := by
    rw [List.map_append]
    congr 1
    · have hc : db.files.map (fun f => if f.fid == F then incr f else f)
          = db.files.map id :=
        List.map_congr_left (fun a ha => by simp [hnof a ha])
      simpa using hc
    · simp [newFileRow, hF]
  rw [hmap]
  have hnewr : (newFileRow pf).fid = F := rfl
  refine ⟨?_, ?_, ?_⟩
  · intro g hg
    rcases List.mem_append.mp hg with h1 | h2
    · obtain ⟨⟨a1, a2, a3⟩, apos⟩ := hagg g h1
      have hne : ¬(⟨F, sid0, pf.complete, pf.rating⟩ : SourceRow).fid = g.fid :=
        fun hh => hnof g h1 hh.symm
      exact ⟨⟨by rw [srcCount_append_nomatch hne]; exact a1,
        by rw [srcCompleteCount_append_nomatch hne]; exact a2,
        by rw [srcRatingSum_append_nomatch hne]; exact a3⟩, apos⟩
    · have hgeq : g = incr (newFileRow pf) := by simpa using h2
      subst hgeq
      have hgf : (incr (newFileRow pf)).fid = F := rfl
      refine ⟨⟨?_, ?_, ?_⟩, ?_⟩
      · rw [hgf, srcCount_append_match rfl, hnos]
        simp [hincr, newFileRow]
      · rw [hgf, srcCompleteCount_append_match rfl, hnosc]
        by_cases hc : pf.complete <;> simp [hincr, newFileRow, hc]
      · rw [hgf, srcRatingSum_append_match rfl, hnosr]
        simp [hincr, newFileRow]
      · simp [hincr, newFileRow]
  · intro e he
    rcases List.mem_append.mp he with he1 | he2
    · obtain ⟨fr, hfr, hefid⟩ := hnames e he1
      exact ⟨fr, List.mem_append_left _ hfr, hefid⟩
    · have heeq : e = (F, pubName pf) := by simpa using he2
      subst heeq
      exact ⟨incr (newFileRow pf), List.mem_append_right _ (by simp), rfl⟩
  · intro s hs
    rcases List.mem_append.mp hs with hs1 | hs2
    · obtain ⟨fr, hfr, hsfid⟩ := horph s hs1
      exact ⟨fr, List.mem_append_left _ hfr, hsfid⟩
    · have hseq : s = ⟨F, sid0, pf.complete, pf.rating⟩ := by simpa using hs2
      subst hseq
      exact ⟨incr (newFileRow pf), List.mem_append_right _ (by simp), rfl⟩

/-- shareOne preserves the invariant. -/
theorem inv_shareOne (pf : PubFile) (sid0 : Nat) (db : DB) (h : Inv db) :
    Inv (shareOne pf sid0 db) := by
  unfold shareOne
  by_cases hhit : db.files.any (fun r => r.fid == MAKE_FID pf.hash) = true
  · rw [if_pos hhit]
    obtain ⟨hinv1, hpres⟩ := inv_updMeta (MAKE_FID pf.hash) (metaG pf) db h
      (fun x => rfl) (fun x => rfl) (fun x => rfl) (fun x => rfl)
    apply inv_insertSource _ _ _ _ _ hinv1
    obtain ⟨r0, hr0, hr0f⟩ := List.any_eq_true.mp hhit
    exact hpres _ ⟨r0, hr0, by simpa using hr0f⟩
  · rw [if_neg hhit]
    exact inv_share_fresh pf sid0 db h (by simpa using hhit)

/-- db_share_files preserves the invariant. -/
theorem inv_shareFiles (owner : Client) : ∀ (fs : List PubFile) (db : DB),
    Inv db → Inv (db_share_files owner fs db) := by
  intro fs
  induction fs with
  | nil => intro db h; exact h
  | cons f rest ih =>
    intro db h
    by_cases hn : f.name_len = 0
    · rw [show db_share_files owner (f :: rest) db = db_share_files owner rest db from by
        simp [db_share_files, hn]]
      exact ih db h
    · rw [show db_share_files owner (f :: rest) db
          = db_share_files owner rest (shareOne f (MAKE_SID owner) db) from by
        simp [db_share_files, hn]]
      exact ih _ (inv_shareOne f _ db h)

theorem inv_applyOp (db : DB) (op : Op) (h : Inv db) : Inv (applyOp db op) := by
  cases op with
  | share owner fs => exact inv_shareFiles owner fs db h
  | remove c => exact inv_remove c db h

/-- The catalog invariant holds in every reachable state. -/
theorem inv_runOps (ops : List Op) : Inv (runOps ops) := by
  unfold runOps
  have hfold : ∀ (l : List Op) (db : DB), Inv db → Inv (l.foldl applyOp db) := by
    intro l
    induction l with
    | nil => intro db h; exact h
    | cons op rest ih => intro db h; exact ih _ (inv_applyOp db op h)
  refine hfold ops db_create ⟨?_, ?_, ?_⟩ <;> intro x hx <;> simp [db_create] at hx

/-!  Claim C1. -/

/-- C1: after every sequence of db_share_files / db_remove_source calls,
every FileRecord's srcavail equals the number of source rows holding its
fid, srccomplete the number of those with complete set, and the rating
sum column the sum of their ratings — the trigger-maintained aggregates
never drift. -/
theorem c1_aggregate_invariant (ops : List Op) :
    ∀ f ∈ (runOps ops).files,
      f.srcavail = (srcCount (runOps ops).sources f.fid : Int)
      ∧ f.srccomplete = (srcCompleteCount (runOps ops).sources f.fid : Int)
      ∧ f.rating = srcRatingSum (runOps ops).sources f.fid := by
  intro f hf
  exact ((inv_runOps ops).1 f hf).1

/-- The file row produced by the single announcement of bugShareA. -/
def c1Row : FileRow := ⟨0, bugHash, ['a'], [], 1, 0, 1, 1, 5, 1, 0, 0, []⟩

/-- Witness for C1 after one concrete share call. -/
theorem c1_witness :
    c1Row ∈ (runOps [bugShareA]).files
    ∧ (c1Row.srcavail = (srcCount (runOps [bugShareA]).sources c1Row.fid : Int)
      ∧ c1Row.srccomplete = (srcCompleteCount (runOps [bugShareA]).sources c1Row.fid : Int)
      ∧ c1Row.rating = srcRatingSum (runOps [bugShareA]).sources c1Row.fid) :=
  ⟨by decide, c1_aggregate_invariant [bugShareA] c1Row (by decide)⟩

/-!  Claim C3. -/

theorem searchRows_mem_files (matchP : List Char → List Char → Bool) (db : DB)
    (p : SearchParams) : ∀ g ∈ searchRows matchP db p, g ∈ db.files := by
  intro g hg
  unfold searchRows at hg
  obtain ⟨hg1, _⟩ := List.mem_filter.mp hg
  obtain ⟨e, _, hge⟩ := List.mem_flatMap.mp hg1
  exact (List.mem_filter.mp hge).1

/-- C3: when db_remove_source removes the last source(s) of a file (all
of that file's sources belong to the removed client), the FileRecord is
deleted in the same operation, its name leaves the full-text index, the
file appears in no db_search_files result, and db_get_sources yields no
rows for it. -/
theorem c3_orphan_cleanup (ops : List Op) (c : Client) (f : FileRow)
    (_hf : f ∈ (runOps ops).files)
    (hall : ∀ r ∈ (runOps ops).sources, r.fid = f.fid → r.sid = MAKE_SID c) :
    (∀ g ∈ (db_remove_source c (runOps ops)).files, g.fid ≠ f.fid)
    ∧ (∀ e ∈ (db_remove_source c (runOps ops)).fnames, e.1 ≠ f.fid)
    ∧ (∀ (matchP : List Char → List Char → Bool) (p : SearchParams),
        ∀ g ∈ searchRows matchP (db_remove_source c (runOps ops)) p, g.fid ≠ f.fid)
    ∧ (∀ (hsh : List Nat) (n : Nat), MAKE_FID hsh = f.fid →
        db_get_sources hsh n (db_remove_source c (runOps ops)) = ([], 0)) := by
  have hinv2 : Inv (db_remove_source c (runOps ops)) :=
    inv_remove c (runOps ops) (inv_runOps ops)
  have hsrc2 : (db_remove_source c (runOps ops)).sources
      = (runOps ops).sources.filter (fun r => !(r.sid == MAKE_SID c)) := by
    unfold db_remove_source
    rw [removeSrcAux_sources]
    simp
  have hnosrc : ∀ r ∈ (db_remove_source c (runOps ops)).sources, ¬r.fid = f.fid := by
    intro r hr hreq
    rw [hsrc2] at hr
    obtain ⟨hrmem, hrkeep⟩ := List.mem_filter.mp hr
    have := hall r hrmem hreq
    simp [this] at hrkeep
  have hmain : ∀ g ∈ (db_remove_source c (runOps ops)).files, g.fid ≠ f.fid := by
    intro g hg heq
    obtain ⟨⟨a1, _, _⟩, apos⟩ := hinv2.1 g hg
    have hcount : 0 < List.countP (fun r => r.fid == g.fid)
        (db_remove_source c (runOps ops)).sources := by
      rw [a1] at apos
      unfold srcCount at apos
      omega
    obtain ⟨r, hr, hrfid⟩ := List.countP_pos_iff.mp hcount
    exact hnosrc r hr (by rw [show r.fid = g.fid from by simpa using hrfid]; exact heq)
  refine ⟨hmain, ?_, ?_, ?_⟩
  · intro e he heq
    obtain ⟨g, hg, hgfid⟩ := hinv2.2.1 e he
    exact hmain g hg (hgfid.trans heq)
  · intro matchP p g hg
    exact hmain g (searchRows_mem_files matchP _ p g hg)
  · intro hsh n hfid
    have hfil : (db_remove_source c (runOps ops)).sources.filter
        (fun r => r.fid == MAKE_FID hsh) = [] := by
      rw [List.filter_eq_nil_iff]
      intro r hr
      simp only [hfid, beq_iff_eq]
      exact hnosrc r hr
    unfold db_get_sources
    rw [hfil]
    simp

/-- Witness for C3: sharing one file from client (1,2) and then removing
that client's sources deletes the file everywhere. -/
theorem c3_witness :
    c1Row ∈ (runOps [bugShareA]).files
    ∧ (∀ r ∈ (runOps [bugShareA]).sources, r.fid = c1Row.fid → r.sid = MAKE_SID ⟨1, 2⟩)
    ∧ ((∀ g ∈ (db_remove_source ⟨1, 2⟩ (runOps [bugShareA])).files, g.fid ≠ c1Row.fid)
      ∧ (∀ e ∈ (db_remove_source ⟨1, 2⟩ (runOps [bugShareA])).fnames, e.1 ≠ c1Row.fid)
      ∧ (∀ (matchP : List Char → List Char → Bool) (p : SearchParams),
          ∀ g ∈ searchRows matchP (db_remove_source ⟨1, 2⟩ (runOps [bugShareA])) p,
            g.fid ≠ c1Row.fid)
      ∧ (∀ (hsh : List Nat) (n : Nat), MAKE_FID hsh = c1Row.fid →
          db_get_sources hsh n (db_remove_source ⟨1, 2⟩ (runOps [bugShareA])) = ([], 0))) :=
  ⟨by decide, by decide,
    c3_orphan_cleanup [bugShareA] ⟨1, 2⟩ c1Row (by decide) (by decide)⟩

end Ed2kd
